import Mathlib

set_option maxRecDepth 100000

/-!
# manu-node-cli: the storage layer

A shallow embedding of `internal/node/node.go` and `internal/storage/storage.go`.

* A `*node.Node` is embedded as a `Node` value and a `[]*node.Node` as a `List Node`
  (a nil slice and an empty slice are both the empty list; nil entries are not modelled).
* A Go `string` is embedded as a `String`, a sequence of code points.
* `time.Time` is embedded as an instant, an integer count of nanoseconds.
* The functions that `storage.go` imports from the Go standard library
  (`json.MarshalIndent`, `json.Unmarshal`, `strings.ToLower`) are not part of the
  repository; they are the fields of `Env`, and every operation takes the `Env` it runs in.
* The file `nodes.json` and the outcome of the `os` calls on it are the `World`; every
  operation takes the world it starts in and returns the world it ends in.  The world
  also records the sequence of `os` calls performed, so that what an operation did
  to the file (and how often it looked at it) is part of its result.
* `Load`, `Save` and the operations built on them are embedded as they run on one
  goroutine.  Calls on several goroutines, and the lock `s.mu` that `Load` and `Save`
  take, are embedded separately as tasks taking turns (section Goroutines).
-/

namespace Storage

/-- An instant (`time.Time`), as nanoseconds since the epoch. -/
abbrev Time := Int

/-- The contents of a file (`[]byte`). -/
abbrev Bytes := List UInt8

/-- Mirror of `node.Node`. -/
structure Node where
  ID : String
  Title : String
  Description : String
  Operations : List String
  UNSAddress : String
  CreatedAt : Time
  UpdatedAt : Time
deriving DecidableEq, Repr

/-- The errors built by `fmt.Errorf` in `storage.go`, one constructor per call site. -/
inductive Error where
  /-- Text "failed to read nodes file: %w" (Load). -/
  | readFailed
  /-- Text "failed to unmarshal nodes: %w" (Load). -/
  | unmarshalFailed (cause : String)
  /-- Text "failed to marshal nodes: %w" (Save). -/
  | marshalFailed (cause : String)
  /-- Text "failed to write nodes file: %w" (Save). -/
  | writeFailed
  /-- Text "node with ID %s not found" (GetNode, UpdateNode, DeleteNode). -/
  | idNotFound (id : String)
  /-- Text "node with title '%s' not found" (GetNodeByTitle). -/
  | titleNotFound (title : String)
  /-- Text "multiple nodes found with title '%s'" (GetNodeByTitle). -/
  | titleAmbiguous (title : String)
deriving DecidableEq, Repr

deriving instance DecidableEq for Except

/-- The error reports that no record matched. -/
def Error.isNotFound : Error → Bool
  | .idNotFound _ => true
  | .titleNotFound _ => true
  | _ => false

/-- The error reports that several records matched a title. -/
def Error.isAmbiguous : Error → Bool
  | .titleAmbiguous _ => true
  | _ => false

/-- The error comes from `Load`: the file could not be read or decoded. -/
def Error.isLoadFailure : Error → Bool
  | .readFailed => true
  | .unmarshalFailed _ => true
  | _ => false

/-- The standard-library functions called by `storage.go`. -/
structure Env where
  /-- Stands for `json.MarshalIndent(nodes, "", "  ")`. -/
  marshalIndent : List Node → Except String Bytes
  /-- Stands for `json.Unmarshal(data, &nodes)`. -/
  unmarshal : Bytes → Except String (List Node)
  /-- Stands for `strings.ToLower`. -/
  toLower : String → String

/-- The state of `s.filePath` on disk. -/
inductive File where
  /-- `os.Stat` reports that the file does not exist. -/
  | missing
  /-- The file is there but `os.ReadFile` fails on it. -/
  | unreadable
  /-- The file is there and holds `data`. -/
  | content (data : Bytes)
deriving DecidableEq, Repr

/-- The calls into package `os` made by `storage.go`. -/
inductive Call where
  | stat
  | readFile
  | writeFile (data : Bytes)
deriving DecidableEq, Repr

/-- The file, how `os.WriteFile` fares on it, and the `os` calls made so far (oldest
first).  `readOnly` tells whether `os.WriteFile` reports an error.  `tornAt` tells where a
failing `os.WriteFile` gives up: `none` at the open, which leaves the file untouched;
`some k` after the open, which has truncated the file (`O_TRUNC`), and after `k` bytes of
the data were written, which leaves the file holding those bytes. -/
structure World where
  file : File
  readOnly : Bool
  trace : List Call
  tornAt : Option Nat
deriving DecidableEq, Repr

/-- Record one `os` call. -/
def World.log (w : World) (c : Call) : World :=
  { w with trace := w.trace ++ [c] }

/-- From `w` to `w'` the file stayed the same and no `os.WriteFile` was issued. -/
def NothingWritten (w w' : World) : Prop :=
  w'.file = w.file ∧
    ∃ calls, w'.trace = w.trace ++ calls ∧ ∀ data, Call.writeFile data ∉ calls

/-- The codec turns `ns` into a non-empty file content that it decodes back to `ns`. -/
def Env.RoundTrips (env : Env) (ns : List Node) : Prop :=
  ∃ data, env.marshalIndent ns = .ok data ∧ data ≠ [] ∧ env.unmarshal data = .ok ns

/-- Whatever content the codec produces for `ns` is non-empty and decodes back to `ns`. -/
def Env.DecodesBack (env : Env) (ns : List Node) : Prop :=
  ∀ data, env.marshalIndent ns = .ok data → data ≠ [] ∧ env.unmarshal data = .ok ns

/-- Where a failing write of the world `w` breaks off inside the content the codec
produces for `ns`, the codec rejects what is left: a document cut short does not decode. -/
def Env.RejectsCut (env : Env) (w : World) (ns : List Node) : Prop :=
  ∀ data k, env.marshalIndent ns = .ok data → w.tornAt = some k → 0 < k → k < data.length →
    ∃ cause, env.unmarshal (data.take k) = .error cause

/-- The IDs of the records are pairwise distinct. -/
def IDsDistinct (nodes : List Node) : Prop :=
  (nodes.map fun n => n.ID).Nodup

/-- Every record was created no later than it was last updated. -/
def TimesOrdered (nodes : List Node) : Prop :=
  ∀ x ∈ nodes, x.CreatedAt ≤ x.UpdatedAt

/-- Title comparison as the storage does it: equality of the lowered strings. -/
def Env.eqFold (env : Env) (a b : String) : Prop :=
  env.toLower a = env.toLower b

instance (env : Env) (a b : String) : Decidable (env.eqFold a b) :=
  inferInstanceAs (Decidable (env.toLower a = env.toLower b))

/-- The titles of the records are pairwise distinct under `eqFold`: their lowered forms
are pairwise distinct. -/
def Env.TitlesDistinct (env : Env) (nodes : List Node) : Prop :=
  (nodes.map fun n => env.toLower n.Title).Nodup

/-- The records of `nodes`, in order, whose title equals `t` under `eqFold`. -/
def Env.titleMatches (env : Env) (t : String) (nodes : List Node) : List Node :=
  nodes.filter (fun n => decide (env.eqFold n.Title t))

/-- Load reads all nodes from storage (`Storage.Load`). -/
def Load (env : Env) (w : World) : Except Error (List Node) × World :=
  let w := w.log .stat
  match w.file with
  | .missing => (.ok [], w)
  | .unreadable => (.error .readFailed, w.log .readFile)
  | .content data =>
    let w := w.log .readFile
    if data.length = 0 then (.ok [], w)
    else
      match env.unmarshal data with
      | .error cause => (.error (.unmarshalFailed cause), w)
      | .ok nodes => (.ok nodes, w)

/-- Save writes all nodes to storage (`Storage.Save`). -/
def Save (env : Env) (w : World) (nodes : List Node) : Option Error × World :=
  match env.marshalIndent nodes with
  | .error cause => (some (.marshalFailed cause), w)
  | .ok data =>
    let w := w.log (.writeFile data)
    if w.readOnly then
      match w.tornAt with
      | none => (some .writeFailed, w)
      | some k => (some .writeFailed, { w with file := .content (data.take k) })
    else (none, { w with file := .content data })

/-- ID uniqueness after a mutating call that returned `r` (its error and the world it
ended in): every collection the store then loads has pairwise distinct IDs; the store
does load one when the call reported no error; and it fails to load only when the call
reported a failed write. -/
def KeepsIDs (env : Env) (r : Option Error × World) : Prop :=
  (∀ stored, (Load env r.2).1 = .ok stored → IDsDistinct stored) ∧
  (r.1 = none → ∃ stored, (Load env r.2).1 = .ok stored) ∧
  (∀ e, (Load env r.2).1 = .error e → r.1 = some .writeFailed)

/-- The scan of `SaveNode`: `for i, existing := range nodes`, overwriting the first slot
whose ID is `n.ID` and stopping there.  Returns the slice and `found`. -/
def SaveNode.loop (n : Node) : List Node → List Node × Bool
  | [] => ([], false)
  | existing :: rest =>
    if existing.ID = n.ID then (n :: rest, true)
    else (existing :: (SaveNode.loop n rest).1, (SaveNode.loop n rest).2)

/-- The in-memory part of `SaveNode`, between its Load and its Save: the scan, then
`if !found { nodes = append(nodes, n) }`. -/
def SaveNode.merge (n : Node) (nodes : List Node) : List Node :=
  let scanned := SaveNode.loop n nodes
  if !scanned.2 then scanned.1 ++ [n] else scanned.1

/-- SaveNode adds or updates a single node (`Storage.SaveNode`). -/
def SaveNode (env : Env) (w : World) (n : Node) : Option Error × World :=
  match Load env w with
  | (.error err, w) => (some err, w)
  | (.ok nodes, w) => Save env w (SaveNode.merge n nodes)

/-- The scan of `GetNode`: the first node whose ID is `id`. -/
def GetNode.loop (id : String) : List Node → Option Node
  | [] => none
  | n :: rest => if n.ID = id then some n else GetNode.loop id rest

/-- GetNode retrieves a node by ID (`Storage.GetNode`). -/
def GetNode (env : Env) (w : World) (id : String) : Except Error Node × World :=
  match Load env w with
  | (.error err, w) => (.error err, w)
  | (.ok nodes, w) =>
    match GetNode.loop id nodes with
    | some n => (.ok n, w)
    | none => (.error (.idNotFound id), w)

/-- The scan of `GetNodeByTitle`: the nodes whose lowered title is `titleLower`, in order. -/
def GetNodeByTitle.loop (env : Env) (titleLower : String) : List Node → List Node
  | [] => []
  | n :: rest =>
    if env.toLower n.Title = titleLower then n :: GetNodeByTitle.loop env titleLower rest
    else GetNodeByTitle.loop env titleLower rest

/-- GetNodeByTitle retrieves a node by title, case-insensitive (`Storage.GetNodeByTitle`). -/
def GetNodeByTitle (env : Env) (w : World) (title : String) : Except Error Node × World :=
  match Load env w with
  | (.error err, w) => (.error err, w)
  | (.ok nodes, w) =>
    let titleLower := env.toLower title
    let matched := GetNodeByTitle.loop env titleLower nodes
    if h : matched.length = 0 then (.error (.titleNotFound title), w)
    else if matched.length > 1 then (.error (.titleAmbiguous title), w)
    else (.ok (matched.get ⟨0, Nat.pos_of_ne_zero h⟩), w)

/-- GetNodeByIDOrTitle tries to get a node by ID first, then by title
(`Storage.GetNodeByIDOrTitle`). -/
def GetNodeByIDOrTitle (env : Env) (w : World) (identifier : String) :
    Except Error Node × World :=
  match GetNode env w identifier with
  | (.ok n, w) => (.ok n, w)
  | (.error _, w) => GetNodeByTitle env w identifier

/-- The scan of `IsTitleUnique`: false at the first node with another ID and the lowered
title, true when the range is exhausted. -/
def IsTitleUnique.loop (env : Env) (titleLower excludeID : String) : List Node → Bool
  | [] => true
  | n :: rest =>
    if n.ID ≠ excludeID ∧ env.toLower n.Title = titleLower then false
    else IsTitleUnique.loop env titleLower excludeID rest

/-- IsTitleUnique checks if a title is unique, case-insensitive (`Storage.IsTitleUnique`). -/
def IsTitleUnique (env : Env) (w : World) (title excludeID : String) :
    Except Error Bool × World :=
  match Load env w with
  | (.error err, w) => (.error err, w)
  | (.ok nodes, w) => (.ok (IsTitleUnique.loop env (env.toLower title) excludeID nodes), w)

/-- The scan of `UpdateNode`: the first slot whose ID is `id` receives `updated` with its
ID set to `id` and its CreatedAt set to the slot's; the scan stops there.  Returns the
slice and `found`. -/
def UpdateNode.loop (id : String) (updated : Node) : List Node → List Node × Bool
  | [] => ([], false)
  | n :: rest =>
    if n.ID = id then ({ updated with ID := id, CreatedAt := n.CreatedAt } :: rest, true)
    else (n :: (UpdateNode.loop id updated rest).1, (UpdateNode.loop id updated rest).2)

/-- UpdateNode updates an existing node (`Storage.UpdateNode`). -/
def UpdateNode (env : Env) (w : World) (id : String) (updated : Node) :
    Option Error × World :=
  match Load env w with
  | (.error err, w) => (some err, w)
  | (.ok nodes, w) =>
    let scanned := UpdateNode.loop id updated nodes
    if !scanned.2 then (some (.idNotFound id), w)
    else Save env w scanned.1

/-- The scan of `DeleteNode`: `filtered` collects the nodes whose ID is not `id`, and
`found` tells whether one was skipped. -/
def DeleteNode.loop (id : String) : List Node → List Node × Bool
  | [] => ([], false)
  | n :: rest =>
    if n.ID = id then ((DeleteNode.loop id rest).1, true)
    else (n :: (DeleteNode.loop id rest).1, (DeleteNode.loop id rest).2)

/-- DeleteNode removes a node by ID (`Storage.DeleteNode`). -/
def DeleteNode (env : Env) (w : World) (id : String) : Option Error × World :=
  match Load env w with
  | (.error err, w) => (some err, w)
  | (.ok nodes, w) =>
    let scanned := DeleteNode.loop id nodes
    if !scanned.2 then (some (.idNotFound id), w)
    else Save env w scanned.1


/-! ## Goroutines

Calls running on several goroutines are embedded as tasks that take turns.  A turn is
one of: taking a lock of `s.mu` (possible only when the lock is free for it), or running
the body of `Load` or of `Save` up to its deferred unlock.  While a goroutine is in such
a body it holds the lock the body was entered with, so no other goroutine's `Save` can
run in between; the order of the turns is otherwise arbitrary. -/

/-- The state of `s.mu` (`sync.RWMutex`): the number of goroutines holding the read lock,
and whether one holds the write lock. -/
structure Mutex where
  readers : Nat
  writer : Bool
deriving DecidableEq, Repr

/-- Where a goroutine stands in its call of `SaveNode` or of `Load`. -/
inductive Task where
  /-- `SaveNode(n)` was called; next is `s.mu.RLock()` in its `s.Load()`. -/
  | saveNodeCalled (n : Node)
  /-- In the `s.Load()` of `SaveNode(n)`, holding the read lock. -/
  | saveNodeInLoad (n : Node)
  /-- The `s.Load()` of `SaveNode` has returned (and released the read lock), the scan and
  the append are done and `nodes` is their outcome; next is `s.mu.Lock()` in `s.Save(nodes)`. -/
  | saveNodeLoaded (nodes : List Node)
  /-- In the `s.Save(nodes)` of `SaveNode`, holding the write lock. -/
  | saveNodeInSave (nodes : List Node)
  /-- `SaveNode` has returned `err`. -/
  | saveNodeReturned (err : Option Error)
  /-- `Load()` was called; next is `s.mu.RLock()`. -/
  | loadCalled
  /-- In `Load()`, holding the read lock. -/
  | loadInLoad
  /-- `Load()` has returned `result`. -/
  | loadReturned (result : Except Error (List Node))
deriving DecidableEq, Repr

/-- One turn of a task: the task, world and mutex after it, or `none` when the task is
blocked on the lock or has returned. -/
def Task.step (env : Env) (w : World) (mu : Mutex) : Task → Option (Task × World × Mutex)
  | .saveNodeCalled n =>
    if mu.writer then none
    else some (.saveNodeInLoad n, w, { mu with readers := mu.readers + 1 })
  | .saveNodeInLoad n =>
    match Load env w with
    | (.error err, w) => some (.saveNodeReturned (some err), w, { mu with readers := mu.readers - 1 })
    | (.ok nodes, w) =>
      some (.saveNodeLoaded (SaveNode.merge n nodes), w, { mu with readers := mu.readers - 1 })
  | .saveNodeLoaded nodes =>
    if mu.writer ∨ mu.readers ≠ 0 then none
    else some (.saveNodeInSave nodes, w, { mu with writer := true })
  | .saveNodeInSave nodes =>
    some (.saveNodeReturned (Save env w nodes).1, (Save env w nodes).2,
      { mu with writer := false })
  | .saveNodeReturned _ => none
  | .loadCalled =>
    if mu.writer then none
    else some (.loadInLoad, w, { mu with readers := mu.readers + 1 })
  | .loadInLoad =>
    some (.loadReturned (Load env w).1, (Load env w).2, { mu with readers := mu.readers - 1 })
  | .loadReturned _ => none

/-- The store, its mutex, and the goroutines with their calls in progress. -/
structure Machine where
  world : World
  mu : Mutex
  tasks : List Task
deriving DecidableEq, Repr

/-- Goroutine `i` takes a turn; nothing happens when there is no such goroutine, or it is
blocked or has returned. -/
def Machine.step (env : Env) (m : Machine) (i : Nat) : Machine :=
  match m.tasks[i]? with
  | none => m
  | some t =>
    match t.step env m.world m.mu with
    | none => m
    | some (t', w, mu) => ⟨w, mu, m.tasks.set i t'⟩

/-- The goroutines take turns in the order of `schedule`. -/
def Machine.run (env : Env) (m : Machine) (schedule : List Nat) : Machine :=
  schedule.foldl (Machine.step env) m

/-! ## A concrete environment

The theorems below hold for every `Env`.  To instantiate them, `demoEnv` supplies a small
self-contained codec (fixed-width big-endian numbers, length-prefixed strings of code
points) and ASCII lowering, on which `strings.ToLower` agrees for ASCII text. -/

/-- A number below 2^32 as four bytes, most significant first. -/
def putNat32 (n : Nat) : Bytes :=
  [UInt8.ofNat (n / 16777216), UInt8.ofNat (n / 65536), UInt8.ofNat (n / 256), UInt8.ofNat n]

/-- Read four bytes as a number. -/
def getNat32 : Bytes → Option (Nat × Bytes)
  | a :: b :: c :: d :: rest =>
    some (((a.toNat * 256 + b.toNat) * 256 + c.toNat) * 256 + d.toNat, rest)
  | _ => none

/-- Read `count` items with `item`. -/
def getMany {α : Type} (item : Bytes → Option (α × Bytes)) :
    Nat → Bytes → Option (List α × Bytes)
  | 0, data => some ([], data)
  | count + 1, data =>
    match item data with
    | none => none
    | some (x, data) =>
      match getMany item count data with
      | none => none
      | some (xs, data) => some (x :: xs, data)

/-- Read one code point. -/
def getChar (data : Bytes) : Option (Char × Bytes) :=
  match getNat32 data with
  | none => none
  | some (n, data) => some (Char.ofNat n, data)

/-- A string: its length, then its code points. -/
def putString (s : String) : Bytes :=
  putNat32 s.data.length ++ (s.data.map fun c => putNat32 c.toNat).flatten

/-- Read a string. -/
def getString (data : Bytes) : Option (String × Bytes) :=
  match getNat32 data with
  | none => none
  | some (len, data) =>
    match getMany getChar len data with
    | none => none
    | some (cs, data) => some (String.mk cs, data)

/-- An instant: a sign byte, then the magnitude in two 32-bit halves. -/
def putTime (t : Time) : Bytes :=
  (if t < 0 then (1 : UInt8) else 0) :: (putNat32 (t.natAbs / 4294967296) ++ putNat32 t.natAbs)

/-- Read an instant. -/
def getTime : Bytes → Option (Time × Bytes)
  | sign :: data =>
    match getNat32 data with
    | none => none
    | some (hi, data) =>
      match getNat32 data with
      | none => none
      | some (lo, data) =>
        let magnitude : Int := Int.ofNat (hi * 4294967296 + lo % 4294967296)
        some (if sign = 1 then -magnitude else magnitude, data)
  | [] => none

/-- One record, field after field in the order of the struct. -/
def putNode (n : Node) : Bytes :=
  putString n.ID ++ putString n.Title ++ putString n.Description ++
    putNat32 n.Operations.length ++ (n.Operations.map putString).flatten ++
    putString n.UNSAddress ++ putTime n.CreatedAt ++ putTime n.UpdatedAt

/-- Read one record. -/
def getNode (data : Bytes) : Option (Node × Bytes) :=
  match getString data with
  | none => none
  | some (id, data) =>
  match getString data with
  | none => none
  | some (title, data) =>
  match getString data with
  | none => none
  | some (description, data) =>
  match getNat32 data with
  | none => none
  | some (count, data) =>
  match getMany getString count data with
  | none => none
  | some (operations, data) =>
  match getString data with
  | none => none
  | some (unsAddress, data) =>
  match getTime data with
  | none => none
  | some (createdAt, data) =>
  match getTime data with
  | none => none
  | some (updatedAt, data) =>
    some (⟨id, title, description, operations, unsAddress, createdAt, updatedAt⟩, data)

/-- The string fits the demo format: its length fits 32 bits. -/
def fitsString (s : String) : Bool :=
  decide (s.data.length < 4294967296)

/-- The record fits the demo format: lengths fit 32 bits and instants 64 bits. -/
def fitsNode (n : Node) : Bool :=
  fitsString n.ID && fitsString n.Title && fitsString n.Description &&
    decide (n.Operations.length < 4294967296) && n.Operations.all fitsString &&
    fitsString n.UNSAddress &&
    decide (n.CreatedAt.natAbs < 18446744073709551616) &&
    decide (n.UpdatedAt.natAbs < 18446744073709551616)

/-- The demo encoder: the number of records, then the records; an error when a value
does not fit the format. -/
def demoMarshal (nodes : List Node) : Except String Bytes :=
  if nodes.length < 4294967296 ∧ nodes.all fitsNode = true then
    .ok (putNat32 nodes.length ++ (nodes.map putNode).flatten)
  else .error "value out of range"

/-- The demo decoder; input left over after the last record is an error. -/
def demoUnmarshal (data : Bytes) : Except String (List Node) :=
  match getNat32 data with
  | none => .error "unexpected end of input"
  | some (count, data) =>
    match getMany getNode count data with
    | none => .error "unexpected end of input"
    | some (nodes, []) => .ok nodes
    | some (_, _ :: _) => .error "trailing data"

/-- ASCII lowering of every character. -/
def lowerASCII (s : String) : String :=
  String.mk (s.data.map Char.toLower)

/-- The concrete environment used in the instances. -/
def demoEnv : Env :=
  ⟨demoMarshal, demoUnmarshal, lowerASCII⟩

/-- A store whose file does not exist yet and can be written. -/
def freshWorld : World :=
  ⟨.missing, false, [], none⟩

/-- The world after saving `nodes` into a fresh store with `demoEnv`. -/
def demoStore (nodes : List Node) : World :=
  (Save demoEnv freshWorld nodes).2

/-- First record of `TestSaveAndLoad`. -/
def node1 : Node :=
  ⟨"node1", "Test Node 1", "First test node", ["op1", "op2"], "test/address/1", 1700, 1700⟩

/-- Second record of `TestSaveAndLoad`. -/
def node2 : Node :=
  ⟨"node2", "Test Node 2", "Second test node", ["op3", "op4"], "test/address/2", 1800, 1900⟩

/-- Payload of `TestUpdateNode`: another ID and another creation time than the stored record. -/
def updatedNode : Node :=
  ⟨"different-id", "Updated Title", "Updated description", ["op1", "op2"], "updated/address",
    5000, 5000⟩

/-- A record with the ID of `node2` and other contents. -/
def node2b : Node :=
  ⟨"node2", "Replacement", "", [], "", 2000, 2000⟩

/-- A record with an ID that `node1` and `node2` do not have. -/
def node3 : Node :=
  ⟨"node3", "Node 3", "", [], "", 3000, 3000⟩

/-- A record titled "Pump A", as in the uniqueness example of the specification. -/
def pumpA : Node :=
  ⟨"20240101120000", "Pump A", "", [], "", 100, 100⟩

/-- A record titled "Valve B", as in the uniqueness example of the specification. -/
def valveB : Node :=
  ⟨"20240101120001", "Valve B", "", [], "", 200, 200⟩

/-- A record with its own ID whose title differs from that of `pumpA` in case only. -/
def pumpUpper : Node :=
  ⟨"20240101120002", "PUMP A", "", [], "", 300, 300⟩

/-- A record titled "Pump A" whose ID is the empty string. -/
def pumpNoID : Node :=
  ⟨"", "Pump A", "", [], "", 400, 400⟩

/-- A new record titled "Tank C", as in the uniqueness example of the specification. -/
def tankC : Node :=
  ⟨"20240101120003", "Tank C", "", [], "", 500, 500⟩

/-- A payload that renames a record to "Valve C". -/
def valveC : Node :=
  ⟨"20240101120001", "Valve C", "", [], "", 200, 600⟩

/-- A payload titled "REPLACEMENT", the title of `node2b` in upper case. -/
def replacementUpper : Node :=
  ⟨"node2", "REPLACEMENT", "", [], "", 1800, 2500⟩

/-- A payload for `node1` whose own times are in order (10 before 20) and both lie
before the creation of `node1` (1700). -/
def earlyPayload : Node :=
  ⟨"node1", "Test Node 1", "First test node", ["op1", "op2"], "test/address/1", 10, 20⟩

/-- An empty store with three goroutines: `SaveNode(node1)`, `SaveNode(node2)` and `Load()`. -/
def raceStart : Machine :=
  ⟨freshWorld, ⟨0, false⟩, [.saveNodeCalled node1, .saveNodeCalled node2, .loadCalled]⟩

/-- Both calls of SaveNode run their `s.Load()`, the third goroutine runs its `Load()`,
then both calls of SaveNode run their `s.Save()`; each turn pair is a lock and a body. -/
def raceSchedule : List Nat :=
  [0, 0, 1, 1, 2, 2, 0, 0, 1, 1]

/-- The store of `demoStore nodes` with writing refused from now on. -/
def readOnlyStore (nodes : List Node) : World :=
  { demoStore nodes with readOnly := true }

/-- The store of `demoStore nodes` on which every write from now on fails after the open
has truncated the file and `k` bytes were written. -/
def tornStore (nodes : List Node) (k : Nat) : World :=
  { demoStore nodes with readOnly := true, tornAt := some k }

/-- A store whose file holds one byte, an opening brace, which `demoEnv` cannot decode. -/
def brokenWorld : World :=
  ⟨.content [123], false, [], none⟩

end Storage

namespace Storage

/-! ## The file under `Load` and `Save` -/

theorem World_log_file (w : World) (c : Call) : (w.log c).file = w.file := rfl

theorem World_log_readOnly (w : World) (c : Call) : (w.log c).readOnly = w.readOnly := rfl

/-- Load does not touch the file. -/
theorem Load_file (env : Env) (w : World) : (Load env w).2.file = w.file := by
  unfold Load
  simp only [World_log_file]
  split
  · rfl
  · rfl
  · split
    · rfl
    · split <;> rfl

/-- Load does not change whether the file can be written. -/
theorem Load_readOnly (env : Env) (w : World) : (Load env w).2.readOnly = w.readOnly := by
  unfold Load
  simp only [World_log_file]
  split
  · rfl
  · rfl
  · split
    · rfl
    · split <;> rfl

/-- What Load returns depends on the file only. -/
theorem Load_congr (env : Env) (w w' : World) (h : w.file = w'.file) :
    (Load env w).1 = (Load env w').1 := by
  unfold Load
  simp only [World_log_file, h]
  split
  · rfl
  · rfl
  · split
    · rfl
    · split <;> rfl

/-- Loading twice gives the same result. -/
theorem Load_Load (env : Env) (w : World) : (Load env (Load env w).2).1 = (Load env w).1 :=
  Load_congr env _ _ (Load_file env w)

/-- Load on a file holding non-empty `data` returns what the codec decodes. -/
theorem Load_content (env : Env) (w : World) (data : Bytes) (ns : List Node)
    (hf : w.file = .content data) (hne : data ≠ []) (hu : env.unmarshal data = .ok ns) :
    (Load env w).1 = .ok ns := by
  unfold Load
  simp only [World_log_file, hf]
  have hlen : ¬ data.length = 0 := by simpa using hne
  simp [hlen, hu]

/-- A Save that reports no error has encoded the nodes and left them in the file. -/
theorem Save_none (env : Env) (w : World) (ns : List Node) (h : (Save env w ns).1 = none) :
    ∃ data, env.marshalIndent ns = .ok data ∧ (Save env w ns).2.file = .content data := by
  unfold Save at h ⊢
  cases hm : env.marshalIndent ns with
  | error cause => simp [hm] at h
  | ok data =>
    simp only [hm] at h ⊢
    by_cases hro : (w.log (Call.writeFile data)).readOnly = true
    · cases htorn : (w.log (Call.writeFile data)).tornAt <;> simp [hro, htorn] at h
    · exact ⟨data, rfl, by simp [hro]⟩

/-- On a writable file, Save of a collection the codec round-trips succeeds, and Load
then returns the collection. -/
theorem Save_Load (env : Env) (w : World) (ns : List Node)
    (hrw : w.readOnly = false) (hcodec : env.RoundTrips ns) :
    (Save env w ns).1 = none ∧ (Load env (Save env w ns).2).1 = .ok ns := by
  obtain ⟨data, hm, hne, hu⟩ := hcodec
  have hsave : Save env w ns = (none, { w.log (.writeFile data) with file := .content data }) := by
    unfold Save
    simp [hm, World_log_readOnly, hrw]
  rw [hsave]
  exact ⟨rfl, Load_content env _ data ns rfl hne hu⟩

/-! ## Lists: the first element with a property, and replacing one slot -/

/-- A list with an element satisfying `p` splits at the first such element. -/
theorem exists_first_split {α : Type} (p : α → Prop) [DecidablePred p] (l : List α)
    (h : ∃ x ∈ l, p x) :
    ∃ pre old post, l = pre ++ old :: post ∧ (∀ x ∈ pre, ¬ p x) ∧ p old := by
  induction l with
  | nil => simp at h
  | cons a rest ih =>
    by_cases ha : p a
    · exact ⟨[], a, rest, rfl, by simp, ha⟩
    · have hrest : ∃ x ∈ rest, p x := by
        obtain ⟨x, hx, hpx⟩ := h
        rcases List.mem_cons.mp hx with rfl | hx
        · exact absurd hpx ha
        · exact ⟨x, hx, hpx⟩
      obtain ⟨pre, old, post, hsplit, hpre, hold⟩ := ih hrest
      refine ⟨a :: pre, old, post, by simp [hsplit], ?_, hold⟩
      intro x hx
      rcases List.mem_cons.mp hx with rfl | hx
      · exact ha
      · exact hpre x hx

/-- The slot after `pre` holds the element put there. -/
theorem getElem?_split_at {α : Type} (pre post : List α) (a : α) :
    (pre ++ a :: post)[pre.length]? = some a := by
  induction pre with
  | nil => simp
  | cons x pre ih => simpa using ih

/-- Replacing the slot after `pre` changes no other slot. -/
theorem getElem?_split_ne {α : Type} (pre post : List α) (a b : α) (j : Nat)
    (hj : j ≠ pre.length) : (pre ++ a :: post)[j]? = (pre ++ b :: post)[j]? := by
  induction pre generalizing j with
  | nil =>
    cases j with
    | zero => exact absurd rfl hj
    | succ j => simp
  | cons x pre ih =>
    cases j with
    | zero => simp
    | succ j =>
      have hj2 : j ≠ pre.length := fun h => hj (by simp [h])
      simpa using ih j hj2

/-- A slot before `pre.length` holds an element of `pre`. -/
theorem mem_of_getElem?_split_lt {α : Type} (pre post : List α) (a x : α) (j : Nat)
    (hj : j < pre.length) (hx : (pre ++ a :: post)[j]? = some x) : x ∈ pre := by
  induction pre generalizing j with
  | nil => simp at hj
  | cons y pre ih =>
    cases j with
    | zero =>
      have hxy : y = x := by simpa using hx
      simp [hxy]
    | succ j =>
      have hj2 : j < pre.length := by simpa using hj
      have hx2 : (pre ++ a :: post)[j]? = some x := by simpa using hx
      exact List.mem_cons_of_mem _ (ih j hj2 hx2)

/-! ## The scans -/

theorem SaveNode_loop_absent (n : Node) (nodes : List Node) (h : ∀ x ∈ nodes, x.ID ≠ n.ID) :
    SaveNode.loop n nodes = (nodes, false) := by
  induction nodes with
  | nil => rfl
  | cons a rest ih =>
    have ha : a.ID ≠ n.ID := h a (List.mem_cons_self _ _)
    have hrest := ih (fun x hx => h x (List.mem_cons_of_mem _ hx))
    simp [SaveNode.loop, ha, hrest]

theorem SaveNode_loop_split (n : Node) (pre post : List Node) (old : Node)
    (hpre : ∀ x ∈ pre, x.ID ≠ n.ID) (hold : old.ID = n.ID) :
    SaveNode.loop n (pre ++ old :: post) = (pre ++ n :: post, true) := by
  induction pre with
  | nil => simp [SaveNode.loop, hold]
  | cons a pre ih =>
    have ha : a.ID ≠ n.ID := hpre a (List.mem_cons_self _ _)
    have hrest := ih (fun x hx => hpre x (List.mem_cons_of_mem _ hx))
    simp [SaveNode.loop, ha, hrest]

theorem UpdateNode_loop_absent (id : String) (u : Node) (nodes : List Node)
    (h : ∀ x ∈ nodes, x.ID ≠ id) : UpdateNode.loop id u nodes = (nodes, false) := by
  induction nodes with
  | nil => rfl
  | cons a rest ih =>
    have ha : a.ID ≠ id := h a (List.mem_cons_self _ _)
    have hrest := ih (fun x hx => h x (List.mem_cons_of_mem _ hx))
    simp [UpdateNode.loop, ha, hrest]

theorem UpdateNode_loop_split (id : String) (u : Node) (pre post : List Node) (old : Node)
    (hpre : ∀ x ∈ pre, x.ID ≠ id) (hold : old.ID = id) :
    UpdateNode.loop id u (pre ++ old :: post) =
      (pre ++ { u with ID := id, CreatedAt := old.CreatedAt } :: post, true) := by
  induction pre with
  | nil => simp [UpdateNode.loop, hold]
  | cons a pre ih =>
    have ha : a.ID ≠ id := hpre a (List.mem_cons_self _ _)
    have hrest := ih (fun x hx => hpre x (List.mem_cons_of_mem _ hx))
    simp [UpdateNode.loop, ha, hrest]

/-! ## The operations in terms of Load, the scan and Save -/

theorem SaveNode_of_Load (env : Env) (w : World) (n : Node) (nodes : List Node)
    (hload : (Load env w).1 = .ok nodes) :
    SaveNode env w n = Save env (Load env w).2 (SaveNode.merge n nodes) := by
  unfold SaveNode
  cases hl : Load env w with
  | mk r w1 =>
    rw [hl] at hload
    simp only at hload
    subst hload
    rfl

theorem UpdateNode_of_Load (env : Env) (w : World) (id : String) (u : Node)
    (nodes : List Node) (hload : (Load env w).1 = .ok nodes) :
    UpdateNode env w id u =
      if !(UpdateNode.loop id u nodes).2 then (some (.idNotFound id), (Load env w).2)
      else Save env (Load env w).2 (UpdateNode.loop id u nodes).1 := by
  unfold UpdateNode
  cases hl : Load env w with
  | mk r w1 =>
    rw [hl] at hload
    simp only at hload
    subst hload
    rfl

/-! ## C1: Save then Load -/

/-- C1. For every collection `records`, the empty one included: when `Save records`
reports no error, and the codec decodes what it encoded for `records` (a non-empty
content) back to `records`, the following `Load` returns without error exactly
`records`: the same length, the same records field by field, in the same order. -/
theorem Save_then_Load (env : Env) (w : World) (records : List Node)
    (hsave : (Save env w records).1 = none)
    (hcodec : ∀ data, env.marshalIndent records = .ok data →
      data ≠ [] ∧ env.unmarshal data = .ok records) :
    (Load env (Save env w records).2).1 = .ok records := by
  obtain ⟨data, hm, hfile⟩ := Save_none env w records hsave
  obtain ⟨hne, hu⟩ := hcodec data hm
  exact Load_content env _ data records hfile hne hu

/-- C1 at the two records of `TestSaveAndLoad`, and at the empty collection. -/
theorem Save_then_Load_witness :
    ((Save demoEnv freshWorld [node1, node2]).1 = none ∧
      (Load demoEnv (Save demoEnv freshWorld [node1, node2]).2).1 = .ok [node1, node2]) ∧
    ((Save demoEnv freshWorld []).1 = none ∧
      (Load demoEnv (Save demoEnv freshWorld []).2).1 = .ok []) :=
  ⟨⟨rfl, Save_then_Load demoEnv freshWorld [node1, node2] rfl (by
      intro data h
      have hd : data = putNat32 2 ++ (putNode node1 ++ putNode node2) := by
        have h2 : Except.ok (putNat32 2 ++ (putNode node1 ++ putNode node2)) = Except.ok data := h
        exact (Except.ok.inj h2).symm
      subst hd
      exact ⟨by decide, rfl⟩)⟩,
   ⟨rfl, Save_then_Load demoEnv freshWorld [] rfl (by
      intro data h
      have hd : data = putNat32 0 := by
        have h2 : Except.ok (putNat32 0) = Except.ok data := h
        exact (Except.ok.inj h2).symm
      subst hd
      exact ⟨by decide, rfl⟩)⟩⟩

/-! ## C2: UpdateNode on a stored ID -/

/-- C2. For every stored collection `nodes` holding a record with ID `id` and every
payload `u`: on a writable file and with a codec that round-trips the collection
handed to Save, `UpdateNode id u` reports no error, and the collection stored afterwards
has the same length, holds at the position `i` of the first record `orig` with that ID the
record with ID `id`, CreatedAt of `orig`, and Title, Description, Operations, UNSAddress
and UpdatedAt of `u`, and agrees with `nodes` at every other position. -/
theorem UpdateNode_found (env : Env) (w : World) (nodes : List Node) (id : String) (u : Node)
    (hload : (Load env w).1 = .ok nodes)
    (hmem : ∃ n ∈ nodes, n.ID = id)
    (hrw : w.readOnly = false)
    (hcodec : env.RoundTrips (UpdateNode.loop id u nodes).1) :
    ∃ (i : Nat) (orig : Node) (stored : List Node),
      nodes[i]? = some orig ∧ orig.ID = id ∧
      (∀ j x, j < i → nodes[j]? = some x → x.ID ≠ id) ∧
      (UpdateNode env w id u).1 = none ∧
      (Load env (UpdateNode env w id u).2).1 = .ok stored ∧
      stored.length = nodes.length ∧
      stored[i]? = some ⟨id, u.Title, u.Description, u.Operations, u.UNSAddress,
        orig.CreatedAt, u.UpdatedAt⟩ ∧
      ∀ j, j ≠ i → stored[j]? = nodes[j]? := by
  obtain ⟨pre, old, post, hsplit, hpre, hold⟩ :=
    exists_first_split (fun n : Node => n.ID = id) nodes hmem
  have hloop := UpdateNode_loop_split id u pre post old hpre hold
  rw [← hsplit] at hloop
  have hop := UpdateNode_of_Load env w id u nodes hload
  rw [hloop] at hop hcodec
  simp only [Bool.not_true, Bool.false_eq_true, if_false] at hop
  have hsl := Save_Load env (Load env w).2 _ (by rw [Load_readOnly, hrw]) hcodec
  rw [← hop] at hsl
  refine ⟨pre.length, old, _, ?_, hold, ?_, hsl.1, hsl.2, ?_, ?_, ?_⟩
  · rw [hsplit]
    exact getElem?_split_at pre post old
  · intro j x hj hx
    rw [hsplit] at hx
    exact hpre x (mem_of_getElem?_split_lt pre post old x j hj hx)
  · simp [hsplit]
  · exact getElem?_split_at pre post _
  · intro j hj
    rw [hsplit]
    exact getElem?_split_ne pre post _ old j hj

/-- C2 at the store holding `node1` and `node2`, updating `node2` by the payload of
`TestUpdateNode`. -/
theorem UpdateNode_found_witness :
    (Load demoEnv (demoStore [node1, node2])).1 = .ok [node1, node2] ∧
    ∃ (i : Nat) (orig : Node) (stored : List Node),
      [node1, node2][i]? = some orig ∧ orig.ID = "node2" ∧
      (∀ j x, j < i → [node1, node2][j]? = some x → x.ID ≠ "node2") ∧
      (UpdateNode demoEnv (demoStore [node1, node2]) "node2" updatedNode).1 = none ∧
      (Load demoEnv (UpdateNode demoEnv (demoStore [node1, node2]) "node2" updatedNode).2).1
        = .ok stored ∧
      stored.length = [node1, node2].length ∧
      stored[i]? = some ⟨"node2", updatedNode.Title, updatedNode.Description,
        updatedNode.Operations, updatedNode.UNSAddress, orig.CreatedAt,
        updatedNode.UpdatedAt⟩ ∧
      ∀ j, j ≠ i → stored[j]? = [node1, node2][j]? :=
  ⟨rfl, UpdateNode_found demoEnv (demoStore [node1, node2]) [node1, node2] "node2" updatedNode
    rfl ⟨node2, by simp, rfl⟩ rfl ⟨_, rfl, by decide, rfl⟩⟩

/-! ## C3: SaveNode replaces in place or appends -/

/-- C3. For every stored collection `nodes` and record `n`, on a writable file and with a
codec that round-trips the collection handed to Save, `SaveNode n` reports no error and
leaves a collection `stored` such that: if some stored record has the ID of `n`, then
`stored` has the length of `nodes`, holds `n` at the position `i` of the first such
record and agrees with `nodes` at every other position; otherwise `stored` is `nodes`
with `n` appended, one record longer. -/
theorem SaveNode_replaces_or_appends (env : Env) (w : World) (nodes : List Node) (n : Node)
    (hload : (Load env w).1 = .ok nodes)
    (hrw : w.readOnly = false)
    (hcodec : env.RoundTrips (SaveNode.merge n nodes)) :
    ∃ stored : List Node,
      (SaveNode env w n).1 = none ∧
      (Load env (SaveNode env w n).2).1 = .ok stored ∧
      ((∃ x ∈ nodes, x.ID = n.ID) →
        ∃ (i : Nat) (orig : Node), nodes[i]? = some orig ∧ orig.ID = n.ID ∧
          (∀ j x, j < i → nodes[j]? = some x → x.ID ≠ n.ID) ∧
          stored.length = nodes.length ∧ stored[i]? = some n ∧
          ∀ j, j ≠ i → stored[j]? = nodes[j]?) ∧
      ((∀ x ∈ nodes, x.ID ≠ n.ID) →
        stored = nodes ++ [n] ∧ stored.length = nodes.length + 1) := by
  have hop := SaveNode_of_Load env w n nodes hload
  have hsl := Save_Load env (Load env w).2 _ (by rw [Load_readOnly, hrw]) hcodec
  rw [← hop] at hsl
  refine ⟨SaveNode.merge n nodes, hsl.1, hsl.2, ?_, ?_⟩
  · intro hmem
    obtain ⟨pre, old, post, hsplit, hpre, hold⟩ :=
      exists_first_split (fun x : Node => x.ID = n.ID) nodes hmem
    have hloop := SaveNode_loop_split n pre post old hpre hold
    rw [← hsplit] at hloop
    have hmerge : SaveNode.merge n nodes = pre ++ n :: post := by
      simp [SaveNode.merge, hloop]
    rw [hmerge]
    refine ⟨pre.length, old, ?_, hold, ?_, ?_, ?_, ?_⟩
    · rw [hsplit]
      exact getElem?_split_at pre post old
    · intro j x hj hx
      rw [hsplit] at hx
      exact hpre x (mem_of_getElem?_split_lt pre post old x j hj hx)
    · simp [hsplit]
    · exact getElem?_split_at pre post n
    · intro j hj
      rw [hsplit]
      exact getElem?_split_ne pre post n old j hj
  · intro habsent
    have hloop := SaveNode_loop_absent n nodes habsent
    have hmerge : SaveNode.merge n nodes = nodes ++ [n] := by
      simp [SaveNode.merge, hloop]
    rw [hmerge]
    exact ⟨rfl, by simp⟩

/-- C3 at the store holding `node1` and `node2`: saving a record with the ID of `node2`
(replaced in place), and saving a record with a new ID (appended). -/
theorem SaveNode_replaces_or_appends_witness :
    (∃ stored : List Node,
      (SaveNode demoEnv (demoStore [node1, node2]) node2b).1 = none ∧
      (Load demoEnv (SaveNode demoEnv (demoStore [node1, node2]) node2b).2).1 = .ok stored ∧
      ((∃ x ∈ [node1, node2], x.ID = node2b.ID) →
        ∃ (i : Nat) (orig : Node), [node1, node2][i]? = some orig ∧ orig.ID = node2b.ID ∧
          (∀ j x, j < i → [node1, node2][j]? = some x → x.ID ≠ node2b.ID) ∧
          stored.length = [node1, node2].length ∧ stored[i]? = some node2b ∧
          ∀ j, j ≠ i → stored[j]? = [node1, node2][j]?) ∧
      ((∀ x ∈ [node1, node2], x.ID ≠ node2b.ID) →
        stored = [node1, node2] ++ [node2b] ∧ stored.length = [node1, node2].length + 1)) ∧
    (∃ stored : List Node,
      (SaveNode demoEnv (demoStore [node1, node2]) node3).1 = none ∧
      (Load demoEnv (SaveNode demoEnv (demoStore [node1, node2]) node3).2).1 = .ok stored ∧
      ((∃ x ∈ [node1, node2], x.ID = node3.ID) →
        ∃ (i : Nat) (orig : Node), [node1, node2][i]? = some orig ∧ orig.ID = node3.ID ∧
          (∀ j x, j < i → [node1, node2][j]? = some x → x.ID ≠ node3.ID) ∧
          stored.length = [node1, node2].length ∧ stored[i]? = some node3 ∧
          ∀ j, j ≠ i → stored[j]? = [node1, node2][j]?) ∧
      ((∀ x ∈ [node1, node2], x.ID ≠ node3.ID) →
        stored = [node1, node2] ++ [node3] ∧ stored.length = [node1, node2].length + 1)) :=
  ⟨SaveNode_replaces_or_appends demoEnv (demoStore [node1, node2]) [node1, node2] node2b
      rfl rfl ⟨_, rfl, by decide, rfl⟩,
   SaveNode_replaces_or_appends demoEnv (demoStore [node1, node2]) [node1, node2] node3
      rfl rfl ⟨_, rfl, by decide, rfl⟩⟩

/-! ## C4: GetNode after SaveNode -/

theorem GetNode_loop_absent (id : String) (nodes : List Node) (h : ∀ x ∈ nodes, x.ID ≠ id) :
    GetNode.loop id nodes = none := by
  induction nodes with
  | nil => rfl
  | cons a rest ih =>
    have ha : a.ID ≠ id := h a (List.mem_cons_self _ _)
    have hrest := ih (fun x hx => h x (List.mem_cons_of_mem _ hx))
    simp [GetNode.loop, ha, hrest]

theorem GetNode_loop_split (id : String) (pre post : List Node) (a : Node)
    (hpre : ∀ x ∈ pre, x.ID ≠ id) (ha : a.ID = id) :
    GetNode.loop id (pre ++ a :: post) = some a := by
  induction pre with
  | nil => simp [GetNode.loop, ha]
  | cons b pre ih =>
    have hb : b.ID ≠ id := hpre b (List.mem_cons_self _ _)
    have hrest := ih (fun x hx => hpre x (List.mem_cons_of_mem _ hx))
    simp [GetNode.loop, hb, hrest]

theorem GetNode_of_Load (env : Env) (w : World) (id : String) (nodes : List Node)
    (hload : (Load env w).1 = .ok nodes) :
    GetNode env w id =
      match GetNode.loop id nodes with
      | some n => (.ok n, (Load env w).2)
      | none => (.error (.idNotFound id), (Load env w).2) := by
  unfold GetNode
  cases hl : Load env w with
  | mk r w1 =>
    rw [hl] at hload
    simp only at hload
    subst hload
    rfl

/-- The scan of GetNode for the ID of `n` finds `n` in what SaveNode hands to Save. -/
theorem GetNode_loop_merge (n : Node) (nodes : List Node) :
    GetNode.loop n.ID (SaveNode.merge n nodes) = some n := by
  by_cases hmem : ∃ x ∈ nodes, x.ID = n.ID
  · obtain ⟨pre, old, post, hsplit, hpre, hold⟩ :=
      exists_first_split (fun x : Node => x.ID = n.ID) nodes hmem
    have hloop := SaveNode_loop_split n pre post old hpre hold
    rw [← hsplit] at hloop
    have hmerge : SaveNode.merge n nodes = pre ++ n :: post := by
      simp [SaveNode.merge, hloop]
    rw [hmerge]
    exact GetNode_loop_split n.ID pre post n hpre rfl
  · have habsent : ∀ x ∈ nodes, x.ID ≠ n.ID := fun x hx hid => hmem ⟨x, hx, hid⟩
    have hloop := SaveNode_loop_absent n nodes habsent
    have hmerge : SaveNode.merge n nodes = nodes ++ n :: [] := by
      simp [SaveNode.merge, hloop]
    rw [hmerge]
    exact GetNode_loop_split n.ID nodes [] n habsent rfl

/-- C4. For every stored collection `nodes` and record `n`: when `SaveNode n` reports no
error, and the codec decodes what it encoded for the collection handed to Save (a
non-empty content) back to that collection, `GetNode n.ID` on the resulting store
succeeds and returns `n` itself, equal in every field. -/
theorem GetNode_after_SaveNode (env : Env) (w : World) (nodes : List Node) (n : Node)
    (hload : (Load env w).1 = .ok nodes)
    (hsave : (SaveNode env w n).1 = none)
    (hcodec : ∀ data, env.marshalIndent (SaveNode.merge n nodes) = .ok data →
      data ≠ [] ∧ env.unmarshal data = .ok (SaveNode.merge n nodes)) :
    (GetNode env (SaveNode env w n).2 n.ID).1 = .ok n := by
  have hop := SaveNode_of_Load env w n nodes hload
  rw [hop] at hsave ⊢
  obtain ⟨data, hm, hfile⟩ := Save_none env (Load env w).2 (SaveNode.merge n nodes) hsave
  obtain ⟨hne, hu⟩ := hcodec data hm
  have hstored := Load_content env _ data (SaveNode.merge n nodes) hfile hne hu
  rw [GetNode_of_Load env _ n.ID _ hstored, GetNode_loop_merge n nodes]

/-- C4 as in `TestGetNode`: saving `node3` into the store holding `node1` and `node2`,
then getting it by its ID. -/
theorem GetNode_after_SaveNode_witness :
    (SaveNode demoEnv (demoStore [node1, node2]) node3).1 = none ∧
    (GetNode demoEnv (SaveNode demoEnv (demoStore [node1, node2]) node3).2 node3.ID).1
      = .ok node3 :=
  ⟨rfl, GetNode_after_SaveNode demoEnv (demoStore [node1, node2]) [node1, node2] node3 rfl rfl
    (by
      intro data h
      have hd : data = putNat32 3 ++ (putNode node1 ++ (putNode node2 ++ putNode node3)) := by
        have h2 : Except.ok (putNat32 3 ++ (putNode node1 ++ (putNode node2 ++ putNode node3)))
            = Except.ok data := h
        exact (Except.ok.inj h2).symm
      subst hd
      exact ⟨by decide, rfl⟩)⟩

/-! ## C5: DeleteNode and UpdateNode on an ID that is not stored -/

theorem DeleteNode_loop_fst (id : String) (nodes : List Node) :
    (DeleteNode.loop id nodes).1 = nodes.filter (fun n => decide (n.ID ≠ id)) := by
  induction nodes with
  | nil => rfl
  | cons a rest ih =>
    by_cases ha : a.ID = id
    · simp [DeleteNode.loop, ha, ih]
    · simp [DeleteNode.loop, ha, ih]

theorem DeleteNode_loop_snd (id : String) (nodes : List Node) :
    (DeleteNode.loop id nodes).2 = true ↔ ∃ x ∈ nodes, x.ID = id := by
  induction nodes with
  | nil => simp [DeleteNode.loop]
  | cons a rest ih =>
    by_cases ha : a.ID = id
    · simp [DeleteNode.loop, ha]
    · simp [DeleteNode.loop, ha, ih]

theorem DeleteNode_of_Load (env : Env) (w : World) (id : String) (nodes : List Node)
    (hload : (Load env w).1 = .ok nodes) :
    DeleteNode env w id =
      if !(DeleteNode.loop id nodes).2 then (some (.idNotFound id), (Load env w).2)
      else Save env (Load env w).2 (DeleteNode.loop id nodes).1 := by
  unfold DeleteNode
  cases hl : Load env w with
  | mk r w1 =>
    rw [hl] at hload
    simp only at hload
    subst hload
    rfl

/-- Load issues `os.Stat` and at most one `os.ReadFile`, and no write. -/
theorem Load_nothingWritten (env : Env) (w : World) : NothingWritten w (Load env w).2 := by
  refine ⟨Load_file env w, ?_⟩
  unfold Load
  simp only [World_log_file]
  split
  · exact ⟨[.stat], rfl, by simp⟩
  · exact ⟨[.stat, .readFile], by simp [World.log], by simp⟩
  · split
    · exact ⟨[.stat, .readFile], by simp [World.log], by simp⟩
    · split
      · exact ⟨[.stat, .readFile], by simp [World.log], by simp⟩
      · exact ⟨[.stat, .readFile], by simp [World.log], by simp⟩

/-- C5. For every stored collection `nodes` and every `id` that no stored record carries,
`DeleteNode id` and `UpdateNode id u` (any `u`) both fail with the not-found error for
`id`, and both leave the store as it was: the file is the one before the call, no write
was issued, and the stored collection is still `nodes`. -/
theorem missing_ID_not_found (env : Env) (w : World) (nodes : List Node) (id : String)
    (u : Node)
    (hload : (Load env w).1 = .ok nodes)
    (habsent : ∀ n ∈ nodes, n.ID ≠ id) :
    ((DeleteNode env w id).1 = some (.idNotFound id) ∧
      NothingWritten w (DeleteNode env w id).2 ∧
      (Load env (DeleteNode env w id).2).1 = .ok nodes) ∧
    ((UpdateNode env w id u).1 = some (.idNotFound id) ∧
      NothingWritten w (UpdateNode env w id u).2 ∧
      (Load env (UpdateNode env w id u).2).1 = .ok nodes) ∧
    (Error.idNotFound id).isNotFound = true := by
  have hdel : DeleteNode env w id = (some (.idNotFound id), (Load env w).2) := by
    have hfound : (DeleteNode.loop id nodes).2 = false := by
      cases hb : (DeleteNode.loop id nodes).2 with
      | false => rfl
      | true =>
        obtain ⟨x, hx, hid⟩ := (DeleteNode_loop_snd id nodes).mp hb
        exact absurd hid (habsent x hx)
    rw [DeleteNode_of_Load env w id nodes hload, hfound]
    rfl
  have hupd : UpdateNode env w id u = (some (.idNotFound id), (Load env w).2) := by
    rw [UpdateNode_of_Load env w id u nodes hload, UpdateNode_loop_absent id u nodes habsent]
    rfl
  have hagain : (Load env (Load env w).2).1 = .ok nodes := by
    rw [Load_Load, hload]
  rw [hdel, hupd]
  exact ⟨⟨rfl, Load_nothingWritten env w, hagain⟩, ⟨rfl, Load_nothingWritten env w, hagain⟩, rfl⟩

/-- C5 as in `TestDeleteNode` and `TestUpdateNode`: the ID "non-existent" on the store
holding `node1` and `node2`. -/
theorem missing_ID_not_found_witness :
    ((DeleteNode demoEnv (demoStore [node1, node2]) "non-existent").1
        = some (.idNotFound "non-existent") ∧
      NothingWritten (demoStore [node1, node2])
        (DeleteNode demoEnv (demoStore [node1, node2]) "non-existent").2 ∧
      (Load demoEnv (DeleteNode demoEnv (demoStore [node1, node2]) "non-existent").2).1
        = .ok [node1, node2]) ∧
    ((UpdateNode demoEnv (demoStore [node1, node2]) "non-existent" updatedNode).1
        = some (.idNotFound "non-existent") ∧
      NothingWritten (demoStore [node1, node2])
        (UpdateNode demoEnv (demoStore [node1, node2]) "non-existent" updatedNode).2 ∧
      (Load demoEnv
        (UpdateNode demoEnv (demoStore [node1, node2]) "non-existent" updatedNode).2).1
        = .ok [node1, node2]) ∧
    (Error.idNotFound "non-existent").isNotFound = true :=
  missing_ID_not_found demoEnv (demoStore [node1, node2]) [node1, node2] "non-existent"
    updatedNode rfl (by decide)

/-! ## C6: DeleteNode on a stored ID -/

/-- C6. For every stored collection `nodes` holding at least one record with ID `id`: on
a writable file and with a codec that round-trips the remaining records, `DeleteNode id`
reports no error, and the collection stored afterwards is `nodes` with the records whose
ID is `id` filtered out: no remaining record has that ID, every record of `nodes` with
another ID remains, and the remaining records are in the order they had in `nodes`. -/
theorem DeleteNode_found (env : Env) (w : World) (nodes : List Node) (id : String)
    (hload : (Load env w).1 = .ok nodes)
    (hmem : ∃ n ∈ nodes, n.ID = id)
    (hrw : w.readOnly = false)
    (hcodec : env.RoundTrips (nodes.filter (fun n => decide (n.ID ≠ id)))) :
    ∃ stored : List Node,
      (DeleteNode env w id).1 = none ∧
      (Load env (DeleteNode env w id).2).1 = .ok stored ∧
      stored = nodes.filter (fun n => decide (n.ID ≠ id)) ∧
      (∀ x ∈ stored, x.ID ≠ id) ∧
      (∀ x ∈ nodes, x.ID ≠ id → x ∈ stored) ∧
      stored.Sublist nodes := by
  have hop := DeleteNode_of_Load env w id nodes hload
  rw [(DeleteNode_loop_snd id nodes).mpr hmem, DeleteNode_loop_fst] at hop
  simp only [Bool.not_true, Bool.false_eq_true, if_false] at hop
  have hsl := Save_Load env (Load env w).2 _ (by rw [Load_readOnly, hrw]) hcodec
  rw [← hop] at hsl
  refine ⟨_, hsl.1, hsl.2, rfl, ?_, ?_, List.filter_sublist _⟩
  · intro x hx
    simpa using (List.mem_filter.mp hx).2
  · intro x hx hid
    exact List.mem_filter.mpr ⟨hx, by simpa using hid⟩

/-- C6 as in `TestDeleteNode`: deleting the middle one of three stored records. -/
theorem DeleteNode_found_witness :
    (Load demoEnv (demoStore [node1, node2, node3])).1 = .ok [node1, node2, node3] ∧
    ∃ stored : List Node,
      (DeleteNode demoEnv (demoStore [node1, node2, node3]) "node2").1 = none ∧
      (Load demoEnv (DeleteNode demoEnv (demoStore [node1, node2, node3]) "node2").2).1
        = .ok stored ∧
      stored = [node1, node2, node3].filter (fun n => decide (n.ID ≠ "node2")) ∧
      (∀ x ∈ stored, x.ID ≠ "node2") ∧
      (∀ x ∈ [node1, node2, node3], x.ID ≠ "node2" → x ∈ stored) ∧
      stored.Sublist [node1, node2, node3] :=
  ⟨rfl, DeleteNode_found demoEnv (demoStore [node1, node2, node3]) [node1, node2, node3]
    "node2" rfl ⟨node2, by simp, rfl⟩ rfl ⟨_, rfl, by decide, rfl⟩⟩

/-! ## C7: GetNodeByTitle -/

theorem GetNodeByTitle_loop_eq (env : Env) (t : String) (nodes : List Node) :
    GetNodeByTitle.loop env (env.toLower t) nodes = env.titleMatches t nodes := by
  induction nodes with
  | nil => rfl
  | cons a rest ih =>
    by_cases ha : env.toLower a.Title = env.toLower t
    · simp [GetNodeByTitle.loop, Env.titleMatches, Env.eqFold, ha] at ih ⊢
      exact ih
    · simp [GetNodeByTitle.loop, Env.titleMatches, Env.eqFold, ha] at ih ⊢
      exact ih

theorem GetNodeByTitle_of_Load (env : Env) (w : World) (t : String) (nodes : List Node)
    (hload : (Load env w).1 = .ok nodes) :
    (GetNodeByTitle env w t).1 =
      match env.titleMatches t nodes with
      | [] => .error (.titleNotFound t)
      | [m] => .ok m
      | _ :: _ :: _ => .error (.titleAmbiguous t) := by
  unfold GetNodeByTitle
  cases hl : Load env w with
  | mk r w1 =>
    rw [hl] at hload
    simp only at hload
    subst hload
    rw [← GetNodeByTitle_loop_eq env t nodes]
    have hpick : ∀ ms : List Node,
        (if h : ms.length = 0 then ((Except.error (Error.titleNotFound t) : Except Error Node), w1)
          else if ms.length > 1 then (Except.error (Error.titleAmbiguous t), w1)
          else (Except.ok (ms.get ⟨0, Nat.pos_of_ne_zero h⟩), w1)).1 =
        match ms with
        | [] => .error (.titleNotFound t)
        | [m] => .ok m
        | _ :: _ :: _ => .error (.titleAmbiguous t) := by
      intro ms
      cases ms with
      | nil => simp
      | cons a rest =>
        cases rest with
        | nil => simp
        | cons b rest => simp
    exact hpick _

/-- GetNode succeeds on every ID that some stored record carries. -/
theorem GetNode_of_mem (env : Env) (w : World) (nodes : List Node) (id : String)
    (hload : (Load env w).1 = .ok nodes) (hmem : ∃ x ∈ nodes, x.ID = id) :
    ∃ r, (GetNode env w id).1 = .ok r ∧ r.ID = id := by
  obtain ⟨pre, old, post, hsplit, hpre, hold⟩ :=
    exists_first_split (fun x : Node => x.ID = id) nodes hmem
  refine ⟨old, ?_, hold⟩
  rw [GetNode_of_Load env w id nodes hload, hsplit, GetNode_loop_split id pre post old hpre hold]

/-- C7. For every stored collection `nodes` and title `t`: `GetNodeByTitle t` fails with
the not-found error when no stored record has a title equal to `t` case-insensitively;
fails with the ambiguity error when two or more have, while `GetNode` by the ID of each of
them succeeds; and returns the matching record when exactly one has. -/
theorem GetNodeByTitle_cases (env : Env) (w : World) (nodes : List Node) (t : String)
    (hload : (Load env w).1 = .ok nodes) :
    ((∀ n ∈ nodes, ¬ env.eqFold n.Title t) →
      (GetNodeByTitle env w t).1 = .error (.titleNotFound t) ∧
      (Error.titleNotFound t).isNotFound = true) ∧
    (2 ≤ (env.titleMatches t nodes).length →
      (GetNodeByTitle env w t).1 = .error (.titleAmbiguous t) ∧
      (Error.titleAmbiguous t).isAmbiguous = true ∧
      ∀ m ∈ env.titleMatches t nodes, ∃ r, (GetNode env w m.ID).1 = .ok r ∧ r.ID = m.ID) ∧
    (∀ m, env.titleMatches t nodes = [m] → (GetNodeByTitle env w t).1 = .ok m) := by
  have hop := GetNodeByTitle_of_Load env w t nodes hload
  refine ⟨?_, ?_, ?_⟩
  · intro hnone
    have hempty : env.titleMatches t nodes = [] := by
      apply List.filter_eq_nil_iff.mpr
      intro n hn
      simpa using hnone n hn
    rw [hop, hempty]
    exact ⟨rfl, rfl⟩
  · intro htwo
    refine ⟨?_, rfl, ?_⟩
    · rw [hop]
      match hm : env.titleMatches t nodes with
      | [] => rw [hm] at htwo; simp at htwo
      | [m] => rw [hm] at htwo; simp at htwo
      | a :: b :: rest => rfl
    · intro m hm
      exact GetNode_of_mem env w nodes m.ID hload ⟨m, (List.mem_filter.mp hm).1, rfl⟩
  · intro m hm
    rw [hop, hm]

/-- C7 on the store holding "Pump A", "PUMP A" and "Valve B" under three IDs: no match
for "Tank C", two matches for "pump a" (each still found by its ID), one for "valve b". -/
theorem GetNodeByTitle_cases_witness :
    (Load demoEnv (demoStore [pumpA, pumpUpper, valveB])).1 = .ok [pumpA, pumpUpper, valveB] ∧
    (GetNodeByTitle demoEnv (demoStore [pumpA, pumpUpper, valveB]) "Tank C").1
      = .error (.titleNotFound "Tank C") ∧
    ((GetNodeByTitle demoEnv (demoStore [pumpA, pumpUpper, valveB]) "pump a").1
        = .error (.titleAmbiguous "pump a") ∧
      (Error.titleAmbiguous "pump a").isAmbiguous = true ∧
      ∀ m ∈ demoEnv.titleMatches "pump a" [pumpA, pumpUpper, valveB],
        ∃ r, (GetNode demoEnv (demoStore [pumpA, pumpUpper, valveB]) m.ID).1 = .ok r ∧
          r.ID = m.ID) ∧
    (GetNodeByTitle demoEnv (demoStore [pumpA, pumpUpper, valveB]) "valve b").1
      = .ok valveB :=
  ⟨rfl,
   ((GetNodeByTitle_cases demoEnv (demoStore [pumpA, pumpUpper, valveB])
      [pumpA, pumpUpper, valveB] "Tank C" rfl).1 (by decide)).1,
   (GetNodeByTitle_cases demoEnv (demoStore [pumpA, pumpUpper, valveB])
      [pumpA, pumpUpper, valveB] "pump a" rfl).2.1 (by decide),
   (GetNodeByTitle_cases demoEnv (demoStore [pumpA, pumpUpper, valveB])
      [pumpA, pumpUpper, valveB] "valve b" rfl).2.2 valveB (by decide)⟩

/-! ## C8: GetNodeByIDOrTitle -/

/-- Load fails only because the file could not be read or decoded. -/
theorem Load_error (env : Env) (w : World) (e : Error) (h : (Load env w).1 = .error e) :
    e.isLoadFailure = true := by
  unfold Load at h
  simp only [World_log_file] at h
  split at h
  · simp at h
  · simp at h
    subst h
    rfl
  · split at h
    · simp at h
    · split at h
      · simp at h
        subst h
        rfl
      · simp at h

/-- GetNode ends in the world its Load ends in. -/
theorem GetNode_world (env : Env) (w : World) (id : String) :
    (GetNode env w id).2 = (Load env w).2 := by
  unfold GetNode
  cases hl : Load env w with
  | mk r w1 =>
    cases r with
    | error err => rfl
    | ok nodes =>
      simp only
      split <;> rfl

/-- A failure of GetNode is the failure of its Load, or the not-found error for the ID. -/
theorem GetNode_error (env : Env) (w : World) (id : String) (e : Error)
    (h : (GetNode env w id).1 = .error e) :
    (Load env w).1 = .error e ∨ e = .idNotFound id := by
  unfold GetNode at h
  cases hl : Load env w with
  | mk r w1 =>
    rw [hl] at h
    cases r with
    | error err =>
      left
      simpa using h
    | ok nodes =>
      right
      simp only at h
      split at h
      · simp at h
      · simpa using h.symm

/-- When Load fails, GetNodeByTitle fails with the failure of Load. -/
theorem GetNodeByTitle_of_Load_error (env : Env) (w : World) (t : String) (e : Error)
    (hload : (Load env w).1 = .error e) : (GetNodeByTitle env w t).1 = .error e := by
  unfold GetNodeByTitle
  cases hl : Load env w with
  | mk r w1 =>
    rw [hl] at hload
    simp only at hload
    subst hload
    rfl

/-- What GetNodeByTitle returns depends on the file only. -/
theorem GetNodeByTitle_congr (env : Env) (w w' : World) (t : String) (h : w.file = w'.file) :
    (GetNodeByTitle env w t).1 = (GetNodeByTitle env w' t).1 := by
  have hl := Load_congr env w w' h
  cases hr : (Load env w).1 with
  | error e =>
    rw [GetNodeByTitle_of_Load_error env w t e hr,
      GetNodeByTitle_of_Load_error env w' t e (hl ▸ hr)]
  | ok nodes =>
    rw [GetNodeByTitle_of_Load env w t nodes hr,
      GetNodeByTitle_of_Load env w' t nodes (hl ▸ hr)]

/-- GetNodeByTitle ends in the world its Load ends in. -/
theorem GetNodeByTitle_world (env : Env) (w : World) (t : String) :
    (GetNodeByTitle env w t).2 = (Load env w).2 := by
  unfold GetNodeByTitle
  cases hl : Load env w with
  | mk r w1 =>
    cases r with
    | error err => rfl
    | ok nodes =>
      simp only
      split
      · rfl
      · split <;> rfl

/-- GetNodeByIDOrTitle is GetNode when that succeeds, and otherwise GetNodeByTitle run in
the world GetNode ended in. -/
theorem GetNodeByIDOrTitle_eq (env : Env) (w : World) (x : String) :
    GetNodeByIDOrTitle env w x =
      match (GetNode env w x).1 with
      | .ok n => (.ok n, (GetNode env w x).2)
      | .error _ => GetNodeByTitle env (GetNode env w x).2 x := by
  unfold GetNodeByIDOrTitle
  cases hg : GetNode env w x with
  | mk r w1 =>
    cases r with
    | error err => rfl
    | ok n => rfl

/-- Counterexample to C8 as stated. The file holds one byte that does not decode.
`GetNode "node1"` fails with the unmarshal failure, which is not a not-found error, after
one `os.Stat` and one `os.ReadFile`.  `GetNodeByIDOrTitle "node1"` does not stop there: it
goes on to the title lookup, which stats and reads the file a second time, and only then
returns the failure. -/
theorem GetNodeByIDOrTitle_falls_back_on_load_failure :
    GetNode demoEnv brokenWorld "node1" =
      (.error (.unmarshalFailed "unexpected end of input"),
        ⟨.content [123], false, [.stat, .readFile], none⟩) ∧
    (Error.unmarshalFailed "unexpected end of input").isNotFound = false ∧
    GetNodeByIDOrTitle demoEnv brokenWorld "node1" =
      (.error (.unmarshalFailed "unexpected end of input"),
        ⟨.content [123], false, [.stat, .readFile, .stat, .readFile], none⟩) ∧
    GetNodeByIDOrTitle demoEnv brokenWorld "node1" ≠ GetNode demoEnv brokenWorld "node1" ∧
    GetNodeByIDOrTitle demoEnv brokenWorld "node1" =
      GetNodeByTitle demoEnv (GetNode demoEnv brokenWorld "node1").2 "node1" :=
  ⟨rfl, rfl, rfl, by decide, rfl⟩

/-- C8 as amended. For every file state and identifier `x`: when `GetNode x` succeeds,
`GetNodeByIDOrTitle x` returns its record and ends where it ended; when `GetNode x` fails,
with the not-found error or with any other failure, `GetNodeByIDOrTitle x` goes on to
`GetNodeByTitle x` and returns what that returns; and when the failure of `GetNode x` was
not a not-found error (the file was unreadable or malformed), the title lookup loads the
unchanged file once more and `GetNodeByIDOrTitle x` returns that same failure. -/
theorem GetNodeByIDOrTitle_cases (env : Env) (w : World) (x : String) :
    (∀ n, (GetNode env w x).1 = .ok n →
      GetNodeByIDOrTitle env w x = (.ok n, (GetNode env w x).2)) ∧
    (∀ e, (GetNode env w x).1 = .error e →
      GetNodeByIDOrTitle env w x = GetNodeByTitle env (GetNode env w x).2 x ∧
      (GetNodeByIDOrTitle env w x).1 = (GetNodeByTitle env w x).1) ∧
    (∀ e, (GetNode env w x).1 = .error e → e.isNotFound = false →
      e.isLoadFailure = true ∧
      (GetNodeByIDOrTitle env w x).1 = .error e ∧
      (GetNodeByIDOrTitle env w x).2 = (Load env (Load env w).2).2) := by
  have heq := GetNodeByIDOrTitle_eq env w x
  have hfile : (GetNode env w x).2.file = w.file := by
    rw [GetNode_world, Load_file]
  have hfall : ∀ e, (GetNode env w x).1 = .error e →
      GetNodeByIDOrTitle env w x = GetNodeByTitle env (GetNode env w x).2 x := by
    intro e he
    rw [heq, he]
  refine ⟨?_, ?_, ?_⟩
  · intro n hn
    rw [heq, hn]
  · intro e he
    refine ⟨hfall e he, ?_⟩
    rw [hfall e he]
    exact GetNodeByTitle_congr env _ w x hfile
  · intro e he hnf
    have hload : (Load env w).1 = .error e := by
      rcases GetNode_error env w x e he with h | h
      · exact h
      · subst h
        simp [Error.isNotFound] at hnf
    refine ⟨Load_error env w e hload, ?_, ?_⟩
    · rw [hfall e he]
      apply GetNodeByTitle_of_Load_error
      rw [Load_congr env _ w hfile]
      exact hload
    · rw [hfall e he, GetNodeByTitle_world, GetNode_world]

/-! ## C9 and C10: IsTitleUnique -/

/-- The scan of IsTitleUnique returns false exactly when some node with another ID has
the lowered title. -/
theorem IsTitleUnique_loop_false_iff (env : Env) (t e : String) (nodes : List Node) :
    IsTitleUnique.loop env (env.toLower t) e nodes = false ↔
      ∃ n ∈ nodes, n.ID ≠ e ∧ env.eqFold n.Title t := by
  induction nodes with
  | nil => simp [IsTitleUnique.loop]
  | cons a rest ih =>
    by_cases ha : a.ID ≠ e ∧ env.toLower a.Title = env.toLower t
    · have hex : ∃ n ∈ a :: rest, n.ID ≠ e ∧ env.eqFold n.Title t :=
        ⟨a, List.mem_cons_self _ _, ha⟩
      have hloop : IsTitleUnique.loop env (env.toLower t) e (a :: rest) = false := by
        unfold IsTitleUnique.loop
        rw [if_pos ha]
      exact ⟨fun _ => hex, fun _ => hloop⟩
    · have hloop : IsTitleUnique.loop env (env.toLower t) e (a :: rest) =
          IsTitleUnique.loop env (env.toLower t) e rest := by
        conv => lhs; unfold IsTitleUnique.loop
        rw [if_neg ha]
      rw [hloop, ih]
      constructor
      · rintro ⟨n, hn, hne, heq⟩
        exact ⟨n, List.mem_cons_of_mem _ hn, hne, heq⟩
      · rintro ⟨n, hn, hne, heq⟩
        rcases List.mem_cons.mp hn with rfl | hn
        · exact absurd ⟨hne, heq⟩ ha
        · exact ⟨n, hn, hne, heq⟩

theorem IsTitleUnique_of_Load (env : Env) (w : World) (t e : String) (nodes : List Node)
    (hload : (Load env w).1 = .ok nodes) :
    (IsTitleUnique env w t e).1 = .ok (IsTitleUnique.loop env (env.toLower t) e nodes) := by
  unfold IsTitleUnique
  cases hl : Load env w with
  | mk r w1 =>
    rw [hl] at hload
    simp only at hload
    subst hload
    rfl

/-- C9. For every stored collection `nodes`, title `t` and `excludeID` `e`:
`IsTitleUnique t e` returns false exactly when some stored record whose ID differs from
`e` has a title equal to `t` case-insensitively, and returns true exactly when none has. -/
theorem IsTitleUnique_iff (env : Env) (w : World) (nodes : List Node) (t e : String)
    (hload : (Load env w).1 = .ok nodes) :
    ((IsTitleUnique env w t e).1 = .ok false ↔
      ∃ n ∈ nodes, n.ID ≠ e ∧ env.eqFold n.Title t) ∧
    ((IsTitleUnique env w t e).1 = .ok true ↔
      ¬ ∃ n ∈ nodes, n.ID ≠ e ∧ env.eqFold n.Title t) := by
  rw [IsTitleUnique_of_Load env w t e nodes hload, ← IsTitleUnique_loop_false_iff]
  cases IsTitleUnique.loop env (env.toLower t) e nodes <;> simp

/-- C9 at the example of the specification: with the stored titles "Pump A" and
"Valve B", `IsTitleUnique "pump a" ""` is false and `IsTitleUnique "Tank C" ""` is true. -/
theorem IsTitleUnique_iff_witness :
    (Load demoEnv (demoStore [pumpA, valveB])).1 = .ok [pumpA, valveB] ∧
    (IsTitleUnique demoEnv (demoStore [pumpA, valveB]) "pump a" "").1 = .ok false ∧
    (IsTitleUnique demoEnv (demoStore [pumpA, valveB]) "Tank C" "").1 = .ok true :=
  ⟨rfl,
   (IsTitleUnique_iff demoEnv (demoStore [pumpA, valveB]) [pumpA, valveB] "pump a" "" rfl).1.mpr
     ⟨pumpA, by simp, by decide, by decide⟩,
   (IsTitleUnique_iff demoEnv (demoStore [pumpA, valveB]) [pumpA, valveB] "Tank C" "" rfl).2.mpr
     (by decide)⟩

/-- Counterexample to C10 as stated. The store holds one record, titled "Pump A", whose ID
is the empty string.  `IsTitleUnique "Pump A" ""` returns true although a stored record has
that very title: the record is skipped because its ID equals the empty `excludeID`. -/
theorem IsTitleUnique_empty_excludeID_skips_empty_ID :
    (Load demoEnv (demoStore [pumpNoID])).1 = .ok [pumpNoID] ∧
    (IsTitleUnique demoEnv (demoStore [pumpNoID]) "Pump A" "").1 = .ok true ∧
    (∃ n ∈ [pumpNoID], demoEnv.eqFold n.Title "Pump A") ∧
    ¬ ((IsTitleUnique demoEnv (demoStore [pumpNoID]) "Pump A" "").1 = .ok true ↔
        ¬ ∃ n ∈ [pumpNoID], demoEnv.eqFold n.Title "Pump A") :=
  ⟨rfl, rfl, by decide, by decide⟩

/-- C10 as amended. For every stored collection `nodes` and title `t`:
`IsTitleUnique t ""` returns true exactly when no stored record with a non-empty ID has a
title equal to `t` case-insensitively; so when every stored ID is non-empty, it returns
true exactly when no stored record at all has such a title. -/
theorem IsTitleUnique_empty_excludeID (env : Env) (w : World) (nodes : List Node)
    (t : String) (hload : (Load env w).1 = .ok nodes) :
    ((IsTitleUnique env w t "").1 = .ok true ↔
      ∀ n ∈ nodes, n.ID ≠ "" → ¬ env.eqFold n.Title t) ∧
    ((∀ n ∈ nodes, n.ID ≠ "") →
      ((IsTitleUnique env w t "").1 = .ok true ↔ ∀ n ∈ nodes, ¬ env.eqFold n.Title t)) := by
  have hfalse := IsTitleUnique_loop_false_iff env t "" nodes
  have hmain : (IsTitleUnique env w t "").1 = .ok true ↔
      ∀ n ∈ nodes, n.ID ≠ "" → ¬ env.eqFold n.Title t := by
    rw [IsTitleUnique_of_Load env w t "" nodes hload]
    constructor
    · intro h n hn hne heq
      have hb : IsTitleUnique.loop env (env.toLower t) "" nodes = true := by simpa using h
      have hf := hfalse.mpr ⟨n, hn, hne, heq⟩
      rw [hb] at hf
      exact Bool.noConfusion hf
    · intro h
      cases hb : IsTitleUnique.loop env (env.toLower t) "" nodes with
      | true => rfl
      | false =>
        obtain ⟨n, hn, hne, heq⟩ := hfalse.mp hb
        exact absurd heq (h n hn hne)
  refine ⟨hmain, ?_⟩
  intro hids
  rw [hmain]
  constructor
  · intro h n hn
    exact h n hn (hids n hn)
  · intro h n hn _
    exact h n hn

/-- C10 as amended, on the store holding "Pump A" and "Valve B" under non-empty IDs. -/
theorem IsTitleUnique_empty_excludeID_witness :
    (Load demoEnv (demoStore [pumpA, valveB])).1 = .ok [pumpA, valveB] ∧
    (∀ n ∈ [pumpA, valveB], n.ID ≠ "") ∧
    ((IsTitleUnique demoEnv (demoStore [pumpA, valveB]) "Tank C" "").1 = .ok true ↔
      ∀ n ∈ [pumpA, valveB], ¬ demoEnv.eqFold n.Title "Tank C") :=
  ⟨rfl, by decide,
   (IsTitleUnique_empty_excludeID demoEnv (demoStore [pumpA, valveB]) [pumpA, valveB]
      "Tank C" rfl).2 (by decide)⟩

/-! ## C11: GetNode -/

/-- C11. For every stored collection `nodes` and `id`: `GetNode id` succeeds exactly when
some stored record has an ID equal to `id` as a string (nothing is folded or trimmed);
it then returns the first such record in file order; and when no stored record has that
ID it fails with the not-found error for `id`. -/
theorem GetNode_iff (env : Env) (w : World) (nodes : List Node) (id : String)
    (hload : (Load env w).1 = .ok nodes) :
    ((∃ r, (GetNode env w id).1 = .ok r) ↔ ∃ x ∈ nodes, x.ID = id) ∧
    (∀ pre a post, nodes = pre ++ a :: post → (∀ x ∈ pre, x.ID ≠ id) → a.ID = id →
      (GetNode env w id).1 = .ok a) ∧
    ((∀ x ∈ nodes, x.ID ≠ id) →
      (GetNode env w id).1 = .error (.idNotFound id) ∧
      (Error.idNotFound id).isNotFound = true) := by
  have hop := GetNode_of_Load env w id nodes hload
  have hfirst : ∀ pre a post, nodes = pre ++ a :: post → (∀ x ∈ pre, x.ID ≠ id) → a.ID = id →
      (GetNode env w id).1 = .ok a := by
    intro pre a post hsplit hpre ha
    rw [hop, hsplit, GetNode_loop_split id pre post a hpre ha]
  have hnone : (∀ x ∈ nodes, x.ID ≠ id) →
      (GetNode env w id).1 = .error (.idNotFound id) := by
    intro habsent
    rw [hop, GetNode_loop_absent id nodes habsent]
  refine ⟨⟨?_, ?_⟩, hfirst, fun habsent => ⟨hnone habsent, rfl⟩⟩
  · rintro ⟨r, hr⟩
    by_contra hno
    have habsent : ∀ x ∈ nodes, x.ID ≠ id := fun x hx hid => hno ⟨x, hx, hid⟩
    rw [hnone habsent] at hr
    exact Except.noConfusion hr
  · intro hmem
    obtain ⟨pre, old, post, hsplit, hpre, hold⟩ :=
      exists_first_split (fun x : Node => x.ID = id) nodes hmem
    exact ⟨old, hfirst pre old post hsplit hpre hold⟩

/-- C11 on the store holding `node1`, `node2` and `node2b` (which repeats the ID of
`node2`): "node2" finds the first record with that ID, while "NODE2", "node2 " and
"non-existent", as in `TestGetNode`, are not found. -/
theorem GetNode_iff_witness :
    (Load demoEnv (demoStore [node1, node2, node2b])).1 = .ok [node1, node2, node2b] ∧
    (GetNode demoEnv (demoStore [node1, node2, node2b]) "node2").1 = .ok node2 ∧
    (GetNode demoEnv (demoStore [node1, node2, node2b]) "NODE2").1
      = .error (.idNotFound "NODE2") ∧
    (GetNode demoEnv (demoStore [node1, node2, node2b]) "node2 ").1
      = .error (.idNotFound "node2 ") ∧
    (GetNode demoEnv (demoStore [node1, node2, node2b]) "non-existent").1
      = .error (.idNotFound "non-existent") :=
  ⟨rfl,
   (GetNode_iff demoEnv (demoStore [node1, node2, node2b]) [node1, node2, node2b] "node2"
      rfl).2.1 [node1] node2 [node2b] rfl (by decide) rfl,
   ((GetNode_iff demoEnv (demoStore [node1, node2, node2b]) [node1, node2, node2b] "NODE2"
      rfl).2.2 (by decide)).1,
   ((GetNode_iff demoEnv (demoStore [node1, node2, node2b]) [node1, node2, node2b] "node2 "
      rfl).2.2 (by decide)).1,
   ((GetNode_iff demoEnv (demoStore [node1, node2, node2b]) [node1, node2, node2b]
      "non-existent" rfl).2.2 (by decide)).1⟩

/-! ## C12: the IDs stay pairwise distinct -/

/-- A codec that round-trips `ns` decodes back whatever it produces for `ns`. -/
theorem RoundTrips_decodesBack (env : Env) (ns : List Node) (h : env.RoundTrips ns) :
    env.DecodesBack ns := by
  obtain ⟨data, hm, hne, hu⟩ := h
  intro data2 hm2
  rw [hm] at hm2
  have hd : data = data2 := Except.ok.inj hm2
  subst hd
  exact ⟨hne, hu⟩

/-- Load does not change where a failing write gives up. -/
theorem Load_tornAt (env : Env) (w : World) : (Load env w).2.tornAt = w.tornAt := by
  unfold Load
  simp only [World_log_file]
  split
  · rfl
  · rfl
  · split
    · rfl
    · split <;> rfl

/-- A failed Save has left the file as it was, or it is a write that failed after the
open: the file then holds the first `k` bytes of the encoded nodes. -/
theorem Save_some_cases (env : Env) (w : World) (ns : List Node)
    (h : (Save env w ns).1 ≠ none) :
    (Save env w ns).2.file = w.file ∨
    ∃ data k, env.marshalIndent ns = .ok data ∧ w.tornAt = some k ∧
      (Save env w ns).1 = some .writeFailed ∧
      (Save env w ns).2.file = .content (data.take k) := by
  unfold Save at h ⊢
  cases hm : env.marshalIndent ns with
  | error cause =>
    left
    rfl
  | ok data =>
    simp only [hm] at h ⊢
    by_cases hro : (w.log (Call.writeFile data)).readOnly = true
    · cases htorn : (w.log (Call.writeFile data)).tornAt with
      | none =>
        left
        simp [hro, htorn, World_log_file]
      | some k =>
        right
        exact ⟨data, k, rfl, htorn, by simp [hro, htorn], by simp [hro, htorn]⟩
    · simp [hro] at h

/-- A failed Save leaves the file as it was when failing writes give up at the open. -/
theorem Save_some_file (env : Env) (w : World) (ns : List Node)
    (htorn : w.tornAt = none) (h : (Save env w ns).1 ≠ none) :
    (Save env w ns).2.file = w.file := by
  rcases Save_some_cases env w ns h with hfile | ⟨data, k, _, hk, _, _⟩
  · exact hfile
  · rw [htorn] at hk
    exact Option.noConfusion hk

/-- After Load and Save of `ns`, when Save succeeded or failing writes give up at the
open, the stored collection is `ns` or the one loaded before. -/
theorem Load_after_Save (env : Env) (w : World) (nodes ns : List Node)
    (hload : (Load env w).1 = .ok nodes) (hcodec : env.DecodesBack ns)
    (hkind : (Save env (Load env w).2 ns).1 = none ∨ w.tornAt = none) :
    (Load env (Save env (Load env w).2 ns).2).1 = .ok ns ∨
    (Load env (Save env (Load env w).2 ns).2).1 = .ok nodes := by
  by_cases hs : (Save env (Load env w).2 ns).1 = none
  · left
    obtain ⟨data, hm, hfile⟩ := Save_none env (Load env w).2 ns hs
    obtain ⟨hne, hu⟩ := hcodec data hm
    exact Load_content env _ data ns hfile hne hu
  · right
    have htorn : (Load env w).2.tornAt = none := by
      rcases hkind with h | h
      · exact absurd h hs
      · rw [Load_tornAt, h]
    have hfile := Save_some_file env (Load env w).2 ns htorn hs
    rw [Load_congr env _ w (hfile.trans (Load_file env w))]
    exact hload

/-- Load on a file holding no bytes returns the empty collection. -/
theorem Load_content_nil (env : Env) (w : World) (hf : w.file = .content []) :
    (Load env w).1 = .ok [] := by
  unfold Load
  simp [World_log_file, hf]

/-- Load on a file holding non-empty `data` that the codec rejects fails on the decoding. -/
theorem Load_content_error (env : Env) (w : World) (data : Bytes) (cause : String)
    (hf : w.file = .content data) (hne : data ≠ [])
    (hu : env.unmarshal data = .error cause) :
    (Load env w).1 = .error (.unmarshalFailed cause) := by
  unfold Load
  simp only [World_log_file, hf]
  have hlen : ¬ data.length = 0 := by simpa using hne
  simp [hlen, hu]

/-- After Load and Save of `ns`, whatever the outcome of Save: every collection the store
then loads is `ns`, the one loaded before, or the empty one, so that it has any property
`P` that these three have; the store does load when Save reported no error; and it fails
to load only after a failed write. -/
theorem Load_after_any_Save (env : Env) (w : World) (nodes ns : List Node)
    (P : List Node → Prop)
    (hload : (Load env w).1 = .ok nodes) (hcodec : env.DecodesBack ns)
    (hcut : env.RejectsCut w ns)
    (hns : P ns) (hnodes : P nodes) (hnil : P []) :
    (∀ stored, (Load env (Save env (Load env w).2 ns).2).1 = .ok stored → P stored) ∧
    ((Save env (Load env w).2 ns).1 = none →
      ∃ stored, (Load env (Save env (Load env w).2 ns).2).1 = .ok stored) ∧
    (∀ e, (Load env (Save env (Load env w).2 ns).2).1 = .error e →
      (Save env (Load env w).2 ns).1 = some .writeFailed) := by
  have hsome : (Save env (Load env w).2 ns).1 ≠ none →
      (∀ e, (Load env (Save env (Load env w).2 ns).2).1 = .error e →
        (Save env (Load env w).2 ns).1 = some .writeFailed) := by
    intro hs e he
    rcases Save_some_cases env (Load env w).2 ns hs with hfile | ⟨data, k, hm, hk, hfail, hfile⟩
    · rw [Load_congr env _ w (hfile.trans (Load_file env w)), hload] at he
      exact Except.noConfusion he
    · exact hfail
  have hall : ∀ stored, (Load env (Save env (Load env w).2 ns).2).1 = .ok stored →
      P stored := by
    intro stored hst
    by_cases hs : (Save env (Load env w).2 ns).1 = none
    · obtain ⟨data, hm, hfile⟩ := Save_none env (Load env w).2 ns hs
      obtain ⟨hne, hu⟩ := hcodec data hm
      rw [Load_content env _ data ns hfile hne hu] at hst
      exact (Except.ok.inj hst) ▸ hns
    · rcases Save_some_cases env (Load env w).2 ns hs with hfile | ⟨data, k, hm, hk, hfail, hfile⟩
      · rw [Load_congr env _ w (hfile.trans (Load_file env w)), hload] at hst
        exact (Except.ok.inj hst) ▸ hnodes
      · obtain ⟨hne, hu⟩ := hcodec data hm
        rw [Load_tornAt] at hk
        by_cases hzero : k = 0
        · subst hzero
          rw [Load_content_nil env _ (by simpa using hfile)] at hst
          exact (Except.ok.inj hst) ▸ hnil
        · by_cases hlt : k < data.length
          · obtain ⟨cause, hrej⟩ := hcut data k hm hk (Nat.pos_of_ne_zero hzero) hlt
            have hcutne : data.take k ≠ [] := by
              intro hnil2
              have hlen : (data.take k).length = min k data.length := List.length_take k data
              rw [hnil2] at hlen
              simp only [List.length_nil] at hlen
              omega
            rw [Load_content_error env _ _ cause hfile hcutne hrej] at hst
            exact Except.noConfusion hst
          · have htake : data.take k = data := List.take_of_length_le (Nat.le_of_not_lt hlt)
            rw [htake] at hfile
            rw [Load_content env _ data ns hfile hne hu] at hst
            exact (Except.ok.inj hst) ▸ hns
  refine ⟨hall, ?_, ?_⟩
  · intro hs
    obtain ⟨data, hm, hfile⟩ := Save_none env (Load env w).2 ns hs
    obtain ⟨hne, hu⟩ := hcodec data hm
    exact ⟨ns, Load_content env _ data ns hfile hne hu⟩
  · intro e he
    by_cases hs : (Save env (Load env w).2 ns).1 = none
    · obtain ⟨data, hm, hfile⟩ := Save_none env (Load env w).2 ns hs
      obtain ⟨hne, hu⟩ := hcodec data hm
      rw [Load_content env _ data ns hfile hne hu] at he
      exact Except.noConfusion he
    · exact hsome hs e he

/-- What SaveNode hands to Save has pairwise distinct IDs when the loaded records have. -/
theorem SaveNode_merge_distinct (n : Node) (nodes : List Node) (h : IDsDistinct nodes) :
    IDsDistinct (SaveNode.merge n nodes) := by
  unfold IDsDistinct at h ⊢
  by_cases hmem : ∃ x ∈ nodes, x.ID = n.ID
  · obtain ⟨pre, old, post, hsplit, hpre, hold⟩ :=
      exists_first_split (fun x : Node => x.ID = n.ID) nodes hmem
    have hloop := SaveNode_loop_split n pre post old hpre hold
    rw [← hsplit] at hloop
    have hmerge : SaveNode.merge n nodes = pre ++ n :: post := by
      simp [SaveNode.merge, hloop]
    rw [hmerge]
    rw [hsplit] at h
    simpa [hold] using h
  · have habsent : ∀ x ∈ nodes, x.ID ≠ n.ID := fun x hx hid => hmem ⟨x, hx, hid⟩
    have hloop := SaveNode_loop_absent n nodes habsent
    have hmerge : SaveNode.merge n nodes = nodes ++ [n] := by
      simp [SaveNode.merge, hloop]
    rw [hmerge, List.map_append, List.nodup_append]
    refine ⟨h, by simp, ?_⟩
    intro a ha hb
    obtain ⟨x, hx, hxa⟩ := List.mem_map.mp ha
    have hb2 : a = n.ID := by simpa using hb
    exact habsent x hx (hxa.trans hb2)

/-- The scan of UpdateNode leaves the sequence of IDs as it was. -/
theorem UpdateNode_loop_ids (id : String) (u : Node) (nodes : List Node) :
    (UpdateNode.loop id u nodes).1.map (fun n => n.ID) = nodes.map (fun n => n.ID) := by
  induction nodes with
  | nil => rfl
  | cons a rest ih =>
    by_cases ha : a.ID = id
    · simp [UpdateNode.loop, ha]
    · simp [UpdateNode.loop, ha, ih]

/-- C12. If the IDs of the stored records `nodes` are pairwise distinct, then after
`SaveNode n`, after `UpdateNode id u` and after `DeleteNode id`, for arbitrary `n`, `id`
and `u`, and whether the call reports an error or not, the IDs of the stored records are
pairwise distinct: `KeepsIDs` holds of each call.  A write may fail at the open (file
untouched) or after it (file truncated and partly written).  The codec is taken to decode
back whatever content it produces for the collection handed to Save, and to reject that
content cut short where a failing write of this world breaks off. -/
theorem IDs_stay_distinct (env : Env) (w : World) (nodes : List Node) (n : Node)
    (id : String) (u : Node)
    (hload : (Load env w).1 = .ok nodes)
    (hids : IDsDistinct nodes)
    (hcodecSave : env.DecodesBack (SaveNode.merge n nodes))
    (hcodecUpdate : env.DecodesBack (UpdateNode.loop id u nodes).1)
    (hcodecDelete : env.DecodesBack (DeleteNode.loop id nodes).1)
    (hcutSave : env.RejectsCut w (SaveNode.merge n nodes))
    (hcutUpdate : env.RejectsCut w (UpdateNode.loop id u nodes).1)
    (hcutDelete : env.RejectsCut w (DeleteNode.loop id nodes).1) :
    KeepsIDs env (SaveNode env w n) ∧
    KeepsIDs env (UpdateNode env w id u) ∧
    KeepsIDs env (DeleteNode env w id) := by
  have hagain : (Load env (Load env w).2).1 = .ok nodes := by
    rw [Load_Load, hload]
  have hnil : IDsDistinct [] := by simp [IDsDistinct]
  have hsame : KeepsIDs env (some (.idNotFound id), (Load env w).2) := by
    refine ⟨?_, ?_, ?_⟩
    · intro stored hst
      rw [hagain] at hst
      exact (Except.ok.inj hst) ▸ hids
    · intro hnone
      exact Option.noConfusion hnone
    · intro e he
      rw [hagain] at he
      exact Except.noConfusion he
  refine ⟨?_, ?_, ?_⟩
  · rw [SaveNode_of_Load env w n nodes hload]
    exact Load_after_any_Save env w nodes _ IDsDistinct hload hcodecSave hcutSave
      (SaveNode_merge_distinct n nodes hids) hids hnil
  · rw [UpdateNode_of_Load env w id u nodes hload]
    cases hfound : (UpdateNode.loop id u nodes).2 with
    | false => exact hsame
    | true =>
      simp only [Bool.not_true, Bool.false_eq_true, if_false]
      refine Load_after_any_Save env w nodes _ IDsDistinct hload hcodecUpdate hcutUpdate
        ?_ hids hnil
      unfold IDsDistinct
      rw [UpdateNode_loop_ids]
      exact hids
  · rw [DeleteNode_of_Load env w id nodes hload]
    cases hfound : (DeleteNode.loop id nodes).2 with
    | false => exact hsame
    | true =>
      simp only [Bool.not_true, Bool.false_eq_true, if_false]
      refine Load_after_any_Save env w nodes _ IDsDistinct hload hcodecDelete hcutDelete
        ?_ hids hnil
      unfold IDsDistinct
      rw [DeleteNode_loop_fst]
      exact List.Nodup.sublist ((List.filter_sublist _).map _) hids

/-- A write that gives up at the open cuts no content short. -/
theorem RejectsCut_of_none (env : Env) (w : World) (ns : List Node) (h : w.tornAt = none) :
    env.RejectsCut w ns := by
  intro data k _ hk
  rw [h] at hk
  exact Option.noConfusion hk

/-- The codec rejects the cut content of a world as soon as it rejects the one prefix at
which the failing writes of that world break off. -/
theorem RejectsCut_of_eval (env : Env) (w : World) (ns : List Node) (data : Bytes)
    (k : Nat) (cause : String)
    (hm : env.marshalIndent ns = .ok data) (hk : w.tornAt = some k)
    (hu : env.unmarshal (data.take k) = .error cause) : env.RejectsCut w ns := by
  intro data2 k2 hm2 hk2 _ _
  rw [hm] at hm2
  rw [hk] at hk2
  have hd : data = data2 := Except.ok.inj hm2
  have hkk : k = k2 := Option.some.inj hk2
  subst hd
  subst hkk
  exact ⟨cause, hu⟩

/-- C12 on the store holding `node1` and `node2`, with a new record, an update and a
deletion of "node2": on the writable store, where all three calls succeed; on the store
whose writes fail after five bytes, where all three fail on the write and leave a file
that no longer decodes; and on the store whose writes fail after the truncation with no
byte written, where they leave an empty file that loads as the empty collection; and on
the store whose writes are refused at the open, where the file stays as it was. -/
theorem IDs_stay_distinct_witness :
    ((SaveNode demoEnv (demoStore [node1, node2]) node3).1 = none ∧
      (Load demoEnv (SaveNode demoEnv (demoStore [node1, node2]) node3).2).1
        = .ok [node1, node2, node3] ∧
      KeepsIDs demoEnv (SaveNode demoEnv (demoStore [node1, node2]) node3) ∧
      KeepsIDs demoEnv (UpdateNode demoEnv (demoStore [node1, node2]) "node2" updatedNode) ∧
      KeepsIDs demoEnv (DeleteNode demoEnv (demoStore [node1, node2]) "node2")) ∧
    ((SaveNode demoEnv (tornStore [node1, node2] 5) node3).1 = some .writeFailed ∧
      (Load demoEnv (SaveNode demoEnv (tornStore [node1, node2] 5) node3).2).1
        = .error (.unmarshalFailed "unexpected end of input") ∧
      KeepsIDs demoEnv (SaveNode demoEnv (tornStore [node1, node2] 5) node3) ∧
      KeepsIDs demoEnv (UpdateNode demoEnv (tornStore [node1, node2] 5) "node2" updatedNode) ∧
      KeepsIDs demoEnv (DeleteNode demoEnv (tornStore [node1, node2] 5) "node2")) ∧
    ((DeleteNode demoEnv (tornStore [node1, node2] 0) "node2").1 = some .writeFailed ∧
      (Load demoEnv (DeleteNode demoEnv (tornStore [node1, node2] 0) "node2").2).1 = .ok [] ∧
      KeepsIDs demoEnv (SaveNode demoEnv (tornStore [node1, node2] 0) node3) ∧
      KeepsIDs demoEnv (UpdateNode demoEnv (tornStore [node1, node2] 0) "node2" updatedNode) ∧
      KeepsIDs demoEnv (DeleteNode demoEnv (tornStore [node1, node2] 0) "node2")) ∧
    ((SaveNode demoEnv (readOnlyStore [node1, node2]) node3).1 = some .writeFailed ∧
      (Load demoEnv (SaveNode demoEnv (readOnlyStore [node1, node2]) node3).2).1
        = .ok [node1, node2] ∧
      KeepsIDs demoEnv (SaveNode demoEnv (readOnlyStore [node1, node2]) node3) ∧
      KeepsIDs demoEnv
        (UpdateNode demoEnv (readOnlyStore [node1, node2]) "non-existent" updatedNode) ∧
      KeepsIDs demoEnv (DeleteNode demoEnv (readOnlyStore [node1, node2]) "non-existent")) :=
  ⟨⟨rfl, rfl,
    IDs_stay_distinct demoEnv (demoStore [node1, node2]) [node1, node2] node3 "node2"
      updatedNode rfl (by unfold IDsDistinct; decide)
      (RoundTrips_decodesBack _ _ ⟨_, rfl, by decide, rfl⟩)
      (RoundTrips_decodesBack _ _ ⟨_, rfl, by decide, rfl⟩)
      (RoundTrips_decodesBack _ _ ⟨_, rfl, by decide, rfl⟩)
      (RejectsCut_of_none _ _ _ rfl) (RejectsCut_of_none _ _ _ rfl)
      (RejectsCut_of_none _ _ _ rfl)⟩,
   ⟨rfl, rfl,
    IDs_stay_distinct demoEnv (tornStore [node1, node2] 5) [node1, node2] node3 "node2"
      updatedNode rfl (by unfold IDsDistinct; decide)
      (RoundTrips_decodesBack _ _ ⟨_, rfl, by decide, rfl⟩)
      (RoundTrips_decodesBack _ _ ⟨_, rfl, by decide, rfl⟩)
      (RoundTrips_decodesBack _ _ ⟨_, rfl, by decide, rfl⟩)
      (RejectsCut_of_eval _ _ _ _ 5 _ rfl rfl rfl)
      (RejectsCut_of_eval _ _ _ _ 5 _ rfl rfl rfl)
      (RejectsCut_of_eval _ _ _ _ 5 _ rfl rfl rfl)⟩,
   ⟨rfl, rfl,
    IDs_stay_distinct demoEnv (tornStore [node1, node2] 0) [node1, node2] node3 "node2"
      updatedNode rfl (by unfold IDsDistinct; decide)
      (RoundTrips_decodesBack _ _ ⟨_, rfl, by decide, rfl⟩)
      (RoundTrips_decodesBack _ _ ⟨_, rfl, by decide, rfl⟩)
      (RoundTrips_decodesBack _ _ ⟨_, rfl, by decide, rfl⟩)
      (fun _ _ _ hk hpos _ => by
        have hkk : (0 : Nat) = _ := Option.some.inj hk
        omega)
      (fun _ _ _ hk hpos _ => by
        have hkk : (0 : Nat) = _ := Option.some.inj hk
        omega)
      (fun _ _ _ hk hpos _ => by
        have hkk : (0 : Nat) = _ := Option.some.inj hk
        omega)⟩,
   ⟨rfl, rfl,
    IDs_stay_distinct demoEnv (readOnlyStore [node1, node2]) [node1, node2] node3
      "non-existent" updatedNode rfl (by unfold IDsDistinct; decide)
      (RoundTrips_decodesBack _ _ ⟨_, rfl, by decide, rfl⟩)
      (RoundTrips_decodesBack _ _ ⟨_, rfl, by decide, rfl⟩)
      (RoundTrips_decodesBack _ _ ⟨_, rfl, by decide, rfl⟩)
      (RejectsCut_of_none _ _ _ rfl) (RejectsCut_of_none _ _ _ rfl)
      (RejectsCut_of_none _ _ _ rfl)⟩⟩

/-! ## C13: the titles stay pairwise distinct under the uniqueness guard -/

/-- Replacing one element of a list by one whose image is new keeps the images distinct. -/
theorem nodup_map_replace {α β : Type} (f : α → β) (pre post : List α) (a b : α)
    (h : ((pre ++ a :: post).map f).Nodup) (hb : ∀ x ∈ pre ++ post, f x ≠ f b) :
    ((pre ++ b :: post).map f).Nodup := by
  rw [List.map_append, List.map_cons, List.nodup_middle, List.nodup_cons] at h ⊢
  refine ⟨?_, h.2⟩
  intro hmem
  rw [← List.map_append] at hmem
  obtain ⟨x, hx, hfx⟩ := List.mem_map.mp hmem
  exact hb x hx hfx

/-- When IsTitleUnique returns true, no stored record with another ID has the title. -/
theorem IsTitleUnique_true (env : Env) (w : World) (nodes : List Node) (t e : String)
    (hload : (Load env w).1 = .ok nodes) (h : (IsTitleUnique env w t e).1 = .ok true) :
    ∀ x ∈ nodes, x.ID ≠ e → env.toLower x.Title ≠ env.toLower t := by
  intro x hx hne heq
  rw [IsTitleUnique_of_Load env w t e nodes hload] at h
  have hb : IsTitleUnique.loop env (env.toLower t) e nodes = true := by simpa using h
  have hf := (IsTitleUnique_loop_false_iff env t e nodes).mpr ⟨x, hx, hne, heq⟩
  rw [hb] at hf
  exact Bool.noConfusion hf

/-- What SaveNode hands to Save has distinct titles when the loaded records have and
none of them has the title of `n`. -/
theorem SaveNode_merge_titles (env : Env) (n : Node) (nodes : List Node)
    (h : env.TitlesDistinct nodes)
    (hnew : ∀ x ∈ nodes, env.toLower x.Title ≠ env.toLower n.Title) :
    env.TitlesDistinct (SaveNode.merge n nodes) := by
  unfold Env.TitlesDistinct at h ⊢
  by_cases hmem : ∃ x ∈ nodes, x.ID = n.ID
  · obtain ⟨pre, old, post, hsplit, hpre, hold⟩ :=
      exists_first_split (fun x : Node => x.ID = n.ID) nodes hmem
    have hloop := SaveNode_loop_split n pre post old hpre hold
    rw [← hsplit] at hloop
    have hmerge : SaveNode.merge n nodes = pre ++ n :: post := by
      simp [SaveNode.merge, hloop]
    rw [hmerge]
    rw [hsplit] at h
    apply nodup_map_replace (fun x : Node => env.toLower x.Title) pre post old n h
    intro x hx
    apply hnew x
    rw [hsplit]
    rcases List.mem_append.mp hx with hx | hx
    · exact List.mem_append_left _ hx
    · exact List.mem_append_right _ (List.mem_cons_of_mem _ hx)
  · have habsent : ∀ x ∈ nodes, x.ID ≠ n.ID := fun x hx hid => hmem ⟨x, hx, hid⟩
    have hloop := SaveNode_loop_absent n nodes habsent
    have hmerge : SaveNode.merge n nodes = nodes ++ [n] := by
      simp [SaveNode.merge, hloop]
    rw [hmerge, List.map_append, List.nodup_append]
    refine ⟨h, by simp, ?_⟩
    intro a ha hb
    obtain ⟨x, hx, hxa⟩ := List.mem_map.mp ha
    have hb2 : a = env.toLower n.Title := by simpa using hb
    exact hnew x hx (hxa.trans hb2)

/-- The scan of UpdateNode leaves the titles distinct when the IDs are distinct, the
titles were, and no record with another ID has the title of the payload. -/
theorem UpdateNode_loop_titles (env : Env) (id : String) (u : Node) (nodes : List Node)
    (hids : IDsDistinct nodes) (h : env.TitlesDistinct nodes)
    (hnew : ∀ x ∈ nodes, x.ID ≠ id → env.toLower x.Title ≠ env.toLower u.Title) :
    env.TitlesDistinct (UpdateNode.loop id u nodes).1 := by
  by_cases hmem : ∃ x ∈ nodes, x.ID = id
  · obtain ⟨pre, old, post, hsplit, hpre, hold⟩ :=
      exists_first_split (fun x : Node => x.ID = id) nodes hmem
    have hloop := UpdateNode_loop_split id u pre post old hpre hold
    rw [← hsplit] at hloop
    rw [hloop]
    unfold Env.TitlesDistinct at h ⊢
    unfold IDsDistinct at hids
    rw [hsplit] at h hids
    have hpost : ∀ x ∈ post, x.ID ≠ id := by
      intro x hx hid
      rw [List.map_append, List.map_cons, List.nodup_middle, List.nodup_cons] at hids
      apply hids.1
      rw [← List.map_append]
      exact List.mem_map.mpr ⟨x, List.mem_append_right _ hx, by simp [hid, hold]⟩
    apply nodup_map_replace (fun x : Node => env.toLower x.Title) pre post old _ h
    intro x hx
    have hxid : x.ID ≠ id := by
      rcases List.mem_append.mp hx with hx | hx
      · exact hpre x hx
      · exact hpost x hx
    apply hnew x _ hxid
    rw [hsplit]
    rcases List.mem_append.mp hx with hx | hx
    · exact List.mem_append_left _ hx
    · exact List.mem_append_right _ (List.mem_cons_of_mem _ hx)
  · have habsent : ∀ x ∈ nodes, x.ID ≠ id := fun x hx hid => hmem ⟨x, hx, hid⟩
    rw [UpdateNode_loop_absent id u nodes habsent]
    exact h

/-- Counterexample to C13 as stated, for create and for update.
Create: the store holds one record titled "Pump A" whose ID is the empty string, so its
titles are pairwise distinct.  `IsTitleUnique "Pump A" ""` returns true (the record is
skipped, its ID being the empty `excludeID`), `SaveNode pumpA` succeeds, and the store
then holds two records titled "Pump A".
Update: the store holds two records with the ID "node2", titled "Test Node 2" and
"Replacement", so its titles are pairwise distinct.  `IsTitleUnique "REPLACEMENT" "node2"`
returns true (both records are skipped), `UpdateNode "node2"` with that title succeeds
and overwrites the first of the two, and the store then holds the titles "REPLACEMENT"
and "Replacement". -/
theorem guarded_write_breaks_title_uniqueness :
    ((Load demoEnv (demoStore [pumpNoID])).1 = .ok [pumpNoID] ∧
      demoEnv.TitlesDistinct [pumpNoID] ∧
      (IsTitleUnique demoEnv (demoStore [pumpNoID]) pumpA.Title "").1 = .ok true ∧
      (SaveNode demoEnv (demoStore [pumpNoID]) pumpA).1 = none ∧
      (Load demoEnv (SaveNode demoEnv (demoStore [pumpNoID]) pumpA).2).1
        = .ok [pumpNoID, pumpA] ∧
      ¬ demoEnv.TitlesDistinct [pumpNoID, pumpA]) ∧
    ((Load demoEnv (demoStore [node2, node2b])).1 = .ok [node2, node2b] ∧
      demoEnv.TitlesDistinct [node2, node2b] ∧
      (IsTitleUnique demoEnv (demoStore [node2, node2b]) replacementUpper.Title "node2").1
        = .ok true ∧
      (UpdateNode demoEnv (demoStore [node2, node2b]) "node2" replacementUpper).1 = none ∧
      (Load demoEnv (UpdateNode demoEnv (demoStore [node2, node2b]) "node2"
        replacementUpper).2).1 = .ok [replacementUpper, node2b] ∧
      ¬ demoEnv.TitlesDistinct [replacementUpper, node2b]) :=
  ⟨⟨rfl, by unfold Env.TitlesDistinct; decide, rfl, rfl, rfl,
      by unfold Env.TitlesDistinct; decide⟩,
   ⟨rfl, by unfold Env.TitlesDistinct; decide, rfl, rfl, rfl,
      by unfold Env.TitlesDistinct; decide⟩⟩

/-- C13 as amended. Let the titles of the stored records `nodes` be pairwise distinct
under case-insensitive comparison.
Create: if no stored record has an empty ID and `IsTitleUnique n.Title ""` returns true,
then after `SaveNode n` the store holds a collection whose titles are pairwise distinct,
when SaveNode reported no error or failed with the file left untouched; and whatever
the outcome of SaveNode, a write that failed after truncating the file included, every
collection the store then loads has pairwise distinct titles (the codec being taken to
reject content cut short).
Update: if the stored IDs are pairwise distinct and `IsTitleUnique u.Title id` returns
true, then after a successful `UpdateNode id u` the store holds a collection whose titles
are pairwise distinct.
The codec is taken to decode back whatever content it produces for the collection
handed to Save. -/
theorem titles_stay_distinct (env : Env) (w : World) (nodes : List Node) (n : Node)
    (id : String) (u : Node)
    (hload : (Load env w).1 = .ok nodes)
    (htitles : env.TitlesDistinct nodes) :
    ((∀ x ∈ nodes, x.ID ≠ "") →
      (IsTitleUnique env w n.Title "").1 = .ok true →
      env.DecodesBack (SaveNode.merge n nodes) →
      (((SaveNode env w n).1 = none ∨ w.tornAt = none) →
        ∃ stored, (Load env (SaveNode env w n).2).1 = .ok stored ∧
          env.TitlesDistinct stored) ∧
      (env.RejectsCut w (SaveNode.merge n nodes) →
        ∀ stored, (Load env (SaveNode env w n).2).1 = .ok stored →
          env.TitlesDistinct stored)) ∧
    (IDsDistinct nodes →
      (IsTitleUnique env w u.Title id).1 = .ok true →
      (UpdateNode env w id u).1 = none →
      env.DecodesBack (UpdateNode.loop id u nodes).1 →
      ∃ stored, (Load env (UpdateNode env w id u).2).1 = .ok stored ∧
        env.TitlesDistinct stored) := by
  refine ⟨?_, ?_⟩
  · intro hnonempty hguard hcodec
    have hnew : ∀ x ∈ nodes, env.toLower x.Title ≠ env.toLower n.Title :=
      fun x hx => IsTitleUnique_true env w nodes n.Title "" hload hguard x hx (hnonempty x hx)
    have hmerge := SaveNode_merge_titles env n nodes htitles hnew
    rw [SaveNode_of_Load env w n nodes hload]
    refine ⟨?_, ?_⟩
    · intro hkind
      rcases Load_after_Save env w nodes _ hload hcodec hkind with h | h
      · exact ⟨_, h, hmerge⟩
      · exact ⟨_, h, htitles⟩
    · intro hcut
      exact (Load_after_any_Save env w nodes _ env.TitlesDistinct hload hcodec hcut
        hmerge htitles (by simp [Env.TitlesDistinct])).1
  · intro hids hguard hsucc hcodec
    have hnew := IsTitleUnique_true env w nodes u.Title id hload hguard
    rw [UpdateNode_of_Load env w id u nodes hload] at hsucc ⊢
    cases hfound : (UpdateNode.loop id u nodes).2 with
    | false => simp [hfound] at hsucc
    | true =>
      rw [hfound] at hsucc
      simp only [Bool.not_true, Bool.false_eq_true, if_false] at hsucc ⊢
      obtain ⟨data, hm, hfile⟩ := Save_none env (Load env w).2 _ hsucc
      obtain ⟨hne, hu⟩ := hcodec data hm
      exact ⟨_, Load_content env _ data _ hfile hne hu,
        UpdateNode_loop_titles env id u nodes hids htitles hnew⟩

/-- C13 as amended, on the store holding "Pump A" and "Valve B" under distinct non-empty
IDs: creating "Tank C" and renaming "Valve B" to "Valve C", both passing the guard. -/
theorem titles_stay_distinct_witness :
    (Load demoEnv (demoStore [pumpA, valveB])).1 = .ok [pumpA, valveB] ∧
    demoEnv.TitlesDistinct [pumpA, valveB] ∧
    (∃ stored, (Load demoEnv (SaveNode demoEnv (demoStore [pumpA, valveB]) tankC).2).1
        = .ok stored ∧ demoEnv.TitlesDistinct stored) ∧
    (∃ stored,
      (Load demoEnv (UpdateNode demoEnv (demoStore [pumpA, valveB]) valveB.ID valveC).2).1
        = .ok stored ∧ demoEnv.TitlesDistinct stored) :=
  ⟨rfl, by unfold Env.TitlesDistinct; decide,
   ((titles_stay_distinct demoEnv (demoStore [pumpA, valveB]) [pumpA, valveB] tankC
      valveB.ID valveC rfl (by unfold Env.TitlesDistinct; decide)).1
      (by decide) rfl (RoundTrips_decodesBack _ _ ⟨_, rfl, by decide, rfl⟩)).1 (Or.inl rfl),
   (titles_stay_distinct demoEnv (demoStore [pumpA, valveB]) [pumpA, valveB] tankC
      valveB.ID valveC rfl (by unfold Env.TitlesDistinct; decide)).2
      (by unfold IDsDistinct; decide) rfl rfl
      (RoundTrips_decodesBack _ _ ⟨_, rfl, by decide, rfl⟩)⟩

/-! ## C14: creation no later than update -/

/-- When the scan of GetNode finds `orig`, the list splits at `orig`, the first record
with the ID. -/
theorem GetNode_loop_some (id : String) (nodes : List Node) (orig : Node)
    (h : GetNode.loop id nodes = some orig) :
    ∃ pre post, nodes = pre ++ orig :: post ∧ (∀ x ∈ pre, x.ID ≠ id) ∧ orig.ID = id := by
  by_cases hmem : ∃ x ∈ nodes, x.ID = id
  · obtain ⟨pre, old, post, hsplit, hpre, hold⟩ :=
      exists_first_split (fun x : Node => x.ID = id) nodes hmem
    have hfound := GetNode_loop_split id pre post old hpre hold
    rw [← hsplit, h] at hfound
    have heq : orig = old := Option.some.inj hfound
    subst heq
    exact ⟨pre, post, hsplit, hpre, hold⟩
  · have habsent : ∀ x ∈ nodes, x.ID ≠ id := fun x hx hid => hmem ⟨x, hx, hid⟩
    rw [GetNode_loop_absent id nodes habsent] at h
    exact Option.noConfusion h

/-- Counterexample to C14 as stated. The store holds `node1`, created and updated at
1700; the payload has CreatedAt 10 and UpdatedAt 20, in order.  `UpdateNode "node1"`
succeeds and stores a record with the CreatedAt of the original, 1700, and the UpdatedAt
of the payload, 20: created after it was updated. -/
theorem UpdateNode_breaks_time_order :
    (Load demoEnv (demoStore [node1])).1 = .ok [node1] ∧
    TimesOrdered [node1] ∧
    earlyPayload.CreatedAt ≤ earlyPayload.UpdatedAt ∧
    (UpdateNode demoEnv (demoStore [node1]) "node1" earlyPayload).1 = none ∧
    (Load demoEnv (UpdateNode demoEnv (demoStore [node1]) "node1" earlyPayload).2).1
      = .ok [⟨"node1", "Test Node 1", "First test node", ["op1", "op2"], "test/address/1",
          1700, 20⟩] ∧
    ¬ TimesOrdered [⟨"node1", "Test Node 1", "First test node", ["op1", "op2"],
      "test/address/1", 1700, 20⟩] :=
  ⟨rfl, by unfold TimesOrdered; decide, by decide, rfl, rfl, by unfold TimesOrdered; decide⟩

/-- C14 as amended. If every stored record satisfies CreatedAt <= UpdatedAt, and the
UpdatedAt of the payload `u` is not before the CreatedAt of `orig`, the stored record
that `GetNode id` returns, then after a successful `UpdateNode id u` every stored record
satisfies CreatedAt <= UpdatedAt.  The CreatedAt of `u` plays no part.  The codec is taken
to decode back whatever content it produces for the collection handed to Save. -/
theorem UpdateNode_keeps_time_order (env : Env) (w : World) (nodes : List Node)
    (id : String) (u orig : Node)
    (hload : (Load env w).1 = .ok nodes)
    (hall : TimesOrdered nodes)
    (hget : (GetNode env w id).1 = .ok orig)
    (hu : orig.CreatedAt ≤ u.UpdatedAt)
    (hsucc : (UpdateNode env w id u).1 = none)
    (hcodec : env.DecodesBack (UpdateNode.loop id u nodes).1) :
    ∃ stored, (Load env (UpdateNode env w id u).2).1 = .ok stored ∧ TimesOrdered stored := by
  have hloopGet : GetNode.loop id nodes = some orig := by
    rw [GetNode_of_Load env w id nodes hload] at hget
    cases hg : GetNode.loop id nodes with
    | none =>
      rw [hg] at hget
      exact Except.noConfusion hget
    | some r =>
      rw [hg] at hget
      exact congrArg some (Except.ok.inj hget)
  obtain ⟨pre, post, hsplit, hpre, hold⟩ := GetNode_loop_some id nodes orig hloopGet
  have hloop := UpdateNode_loop_split id u pre post orig hpre hold
  rw [← hsplit] at hloop
  rw [UpdateNode_of_Load env w id u nodes hload] at hsucc ⊢
  rw [hloop] at hsucc hcodec ⊢
  simp only [Bool.not_true, Bool.false_eq_true, if_false] at hsucc ⊢
  obtain ⟨data, hm, hfile⟩ := Save_none env (Load env w).2 _ hsucc
  obtain ⟨hne, hdec⟩ := hcodec data hm
  refine ⟨_, Load_content env _ data _ hfile hne hdec, ?_⟩
  intro x hx
  rcases List.mem_append.mp hx with hx | hx
  · exact hall x (hsplit ▸ List.mem_append_left _ hx)
  · rcases List.mem_cons.mp hx with rfl | hx
    · exact hu
    · exact hall x (hsplit ▸ List.mem_append_right _ (List.mem_cons_of_mem _ hx))

/-- C14 as amended, at the update of `TestUpdateNode`: the payload is stamped (5000) after
the creation of the stored record (1800). -/
theorem UpdateNode_keeps_time_order_witness :
    (Load demoEnv (demoStore [node1, node2])).1 = .ok [node1, node2] ∧
    TimesOrdered [node1, node2] ∧
    (GetNode demoEnv (demoStore [node1, node2]) "node2").1 = .ok node2 ∧
    node2.CreatedAt ≤ updatedNode.UpdatedAt ∧
    (UpdateNode demoEnv (demoStore [node1, node2]) "node2" updatedNode).1 = none ∧
    ∃ stored,
      (Load demoEnv (UpdateNode demoEnv (demoStore [node1, node2]) "node2" updatedNode).2).1
        = .ok stored ∧ TimesOrdered stored :=
  ⟨rfl, by unfold TimesOrdered; decide, rfl, by decide, rfl,
   UpdateNode_keeps_time_order demoEnv (demoStore [node1, node2]) [node1, node2] "node2"
     updatedNode node2 rfl (by unfold TimesOrdered; decide) rfl (by decide) rfl
     (RoundTrips_decodesBack _ _ ⟨_, rfl, by decide, rfl⟩)⟩

/-! ## C15: SaveNode on several goroutines -/

/-- A goroutine that runs `SaveNode n` with no other goroutine taking turns ends with what
`SaveNode` returns, in the world `SaveNode` ends in, and with the mutex free. -/
theorem SaveNode_task_alone (env : Env) (w : World) (n : Node) :
    Machine.run env ⟨w, ⟨0, false⟩, [.saveNodeCalled n]⟩ [0, 0, 0, 0] =
      ⟨(SaveNode env w n).2, ⟨0, false⟩, [.saveNodeReturned (SaveNode env w n).1]⟩ := by
  unfold SaveNode
  cases hl : Load env w with
  | mk r w1 =>
    cases r with
    | error err => simp [Machine.run, Machine.step, Task.step, hl]
    | ok nodes => simp [Machine.run, Machine.step, Task.step, hl]

/-- Two goroutines that both load before either saves: the second Save overwrites the
first.  On a writable store whose file does not exist yet, with a codec that round-trips
the one-record collections, both calls of SaveNode return no error and the store
afterwards holds the second record only. -/
theorem SaveNode_race (env : Env) (w : World) (n1 n2 : Node)
    (hfile : w.file = .missing) (hrw : w.readOnly = false)
    (h1 : env.RoundTrips [n1]) (h2 : env.RoundTrips [n2]) :
    (Machine.run env ⟨w, ⟨0, false⟩, [.saveNodeCalled n1, .saveNodeCalled n2]⟩
        [0, 0, 1, 1, 0, 0, 1, 1]).tasks = [.saveNodeReturned none, .saveNodeReturned none] ∧
    (Load env (Machine.run env ⟨w, ⟨0, false⟩, [.saveNodeCalled n1, .saveNodeCalled n2]⟩
        [0, 0, 1, 1, 0, 0, 1, 1]).world).1 = .ok [n2] := by
  obtain ⟨d1, hm1, hne1, hu1⟩ := h1
  obtain ⟨d2, hm2, hne2, hu2⟩ := h2
  have hlen : ¬ d2.length = 0 := by simpa using hne2
  simp [Machine.run, Machine.step, Task.step, Load, Save, World.log, SaveNode.merge,
    SaveNode.loop, hfile, hrw, hm1, hm2, hu2, hlen]

/-- C15, the code at a failing input. Two goroutines call `SaveNode` with the distinct IDs
"node1" and "node2" on an empty store while a third calls `Load`.  After both calls of
SaveNode have run their `s.Load()` the mutex is free: neither holds a lock between its
Load and its Save, and both are about to save a one-record collection.  When all calls
have returned, both calls of SaveNode have returned no error, yet the final Load returns
one record, `node2`, and not two: the record `node1` is lost. -/
theorem SaveNode_lost_update :
    node1.ID ≠ node2.ID ∧
    (Load demoEnv raceStart.world).1 = .ok [] ∧
    (Machine.run demoEnv raceStart [0, 0, 1, 1]).mu = ⟨0, false⟩ ∧
    (Machine.run demoEnv raceStart [0, 0, 1, 1]).tasks =
      [.saveNodeLoaded [node1], .saveNodeLoaded [node2], .loadCalled] ∧
    (Machine.run demoEnv raceStart raceSchedule).tasks =
      [.saveNodeReturned none, .saveNodeReturned none, .loadReturned (.ok [])] ∧
    (Load demoEnv (Machine.run demoEnv raceStart raceSchedule).world).1 = .ok [node2] ∧
    [node2].length ≠ 2 ∧ node1 ∉ [node2] :=
  ⟨by decide, rfl, rfl, rfl, rfl, rfl, by decide, by decide⟩

end Storage
